import Mathlib

/-!
Verification development for the plink audio fingerprinting system.

The definitions below are shallow embeddings of the Rust sources:
  - src/process/src/lib.rs      (spectrogram generator, Hann window cache)
  - src/database/src/lib.rs     (segment insertion, path lookup)
  - src/process_cli/src/main.rs (bulk ingest, discovery scoring and ranking)

Machine floats (f32 values flowing through the spectrogram) are idealised
as real numbers, except for the millisecond timestamp computation in the
database layer, where the exact f64 rounding behaviour is material and is
modelled faithfully by 53-bit round-to-nearest-even arithmetic on the
rationals.  Rust panics are modelled as Option.none / Except.error.
-/

/-- Rust slice::windows semantics: all contiguous subslices of length n,
in order.  For n greater than the length the result is empty.  The n = 0
case panics in Rust and is guarded by the caller (see run below). -/
def slidingWindows (l : List α) (n : Nat) : List (List α) :=
  (List.range (l.length + 1 - n)).map (fun i => (l.drop i).take n)

/-- Rust Iterator::step_by semantics (for step at least 1): keep the
first element, then every step-th element after it. -/
def stepBy (k : Nat) : List α → List α
  | [] => []
  | x :: xs => x :: stepBy k (xs.drop (k - 1))
termination_by l => l.length
decreasing_by simp [List.length_drop]; omega

theorem slidingWindows_length (l : List α) (n : Nat) :
    (slidingWindows l n).length = l.length + 1 - n := by
  simp [slidingWindows]

theorem slidingWindows_getElem? (l : List α) (n i : Nat)
    (hi : i < l.length + 1 - n) :
    (slidingWindows l n)[i]? = some ((l.drop i).take n) := by
  simp [slidingWindows, List.getElem?_map, List.getElem?_range, hi]

theorem stepBy_nil (k : Nat) : stepBy k ([] : List α) = [] := by
  simp [stepBy]

theorem stepBy_cons (k : Nat) (x : α) (xs : List α) :
    stepBy k (x :: xs) = x :: stepBy k (xs.drop (k - 1)) := by
  simp [stepBy]

theorem stepBy_length (k : Nat) (hk : 1 ≤ k) (l : List α) :
    (stepBy k l).length = (l.length + k - 1) / k := by
  suffices H : ∀ n (l : List α), l.length ≤ n →
      (stepBy k l).length = (l.length + k - 1) / k from H l.length l le_rfl
  intro n
  induction n with
  | zero =>
    intro l hl
    have : l = [] := List.length_eq_zero.mp (Nat.le_zero.mp hl)
    subst this
    simp only [stepBy_nil, List.length_nil]
    exact (Nat.div_eq_of_lt (show 0 + k - 1 < k by omega)).symm
  | succ n ih =>
    intro l hl
    cases l with
    | nil =>
      simp only [stepBy_nil, List.length_nil]
      exact (Nat.div_eq_of_lt (show 0 + k - 1 < k by omega)).symm
    | cons x xs =>
      rw [stepBy_cons]
      have hdrop : (xs.drop (k - 1)).length = xs.length - (k - 1) := by
        simp [List.length_drop]
      have hle : (xs.drop (k - 1)).length ≤ n := by
        simp only [List.length_cons] at hl; omega
      have hrec := ih (xs.drop (k - 1)) hle
      simp only [List.length_cons, hrec, hdrop]
      rcases le_or_lt (k - 1) xs.length with hge | hlt
      · have h1 : xs.length - (k - 1) + k - 1 = xs.length := by omega
        have h2 : xs.length + 1 + k - 1 = xs.length + k := by omega
        rw [h1, h2, Nat.add_div_right _ hk]
      · have h2 : xs.length - (k - 1) = 0 := by omega
        rw [h2]
        have h3 : (0 + k - 1) / k = 0 := Nat.div_eq_of_lt (by omega)
        rw [h3]
        have h4 : xs.length + 1 + k - 1 = xs.length + k := by omega
        rw [h4, Nat.add_div_right _ hk]
        have h5 : xs.length / k = 0 := Nat.div_eq_of_lt (by omega)
        omega

theorem stepBy_getElem? (k : Nat) (hk : 1 ≤ k) (l : List α) (i : Nat) :
    (stepBy k l)[i]? = l[i * k]? := by
  induction i generalizing l with
  | zero =>
    cases l with
    | nil => simp [stepBy_nil]
    | cons x xs => simp [stepBy_cons]
  | succ i ih =>
    cases l with
    | nil => simp [stepBy_nil]
    | cons x xs =>
      rw [stepBy_cons]
      have h1 : (stepBy k (xs.drop (k - 1)))[i]? = (xs.drop (k - 1))[i * k]? := ih _
      have h2 : (xs.drop (k - 1))[i * k]? = xs[(k - 1) + i * k]? := by
        rw [List.getElem?_drop]
      have h3 : (i + 1) * k = ((k - 1) + i * k) + 1 := by
        have : (i + 1) * k = i * k + k := by ring
        omega
      simp only [List.getElem?_cons_succ, h3]
      rw [h1, h2]

/-- SpectrogramConfig from src/process/src/lib.rs: fft_len and overlap in
samples.  The Default instance in the source is fft_len 80, overlap 8. -/
structure SpectrogramConfig where
  fft_len : Nat
  overlap : Nat

/-- Default SpectrogramConfig from the source. -/
def SpectrogramConfig.default : SpectrogramConfig := ⟨80, 8⟩

/-- The ingest and discovery configuration constant SPECTROGRAM_CONFIG
from src/process_cli/src/main.rs. -/
def SPECTROGRAM_CONFIG : SpectrogramConfig := ⟨1280, 320⟩

/-- The target samplerate constant TARGET_SAMPLERATE_HZ from
src/process_cli/src/main.rs. -/
def TARGET_SAMPLERATE_HZ : Nat := 30000

/-- generate_hanning_window from src/process/src/lib.rs, idealised over the
reals: out[i] = 0.5 * (1 - cos(TAU * (i / size))) where TAU = 2 * pi. -/
noncomputable def generate_hanning_window (size : Nat) : List ℝ :=
  (List.range size).map
    (fun (i : Nat) => 0.5 * (1 - Real.cos ((2 * Real.pi) * ((i : ℝ) / (size : ℝ)))))

theorem generate_hanning_window_length (size : Nat) :
    (generate_hanning_window size).length = size := by
  rw [generate_hanning_window, List.length_map, List.length_range]

theorem generate_hanning_window_getElem? (size i : Nat) (hi : i < size) :
    (generate_hanning_window size)[i]? =
      some (0.5 * (1 - Real.cos ((2 * Real.pi) * ((i : ℝ) / (size : ℝ))))) := by
  rw [generate_hanning_window, List.getElem?_map, List.getElem?_range hi, Option.map_some']

/-- Modelled from the spec: the rustfft forward transform used by
SpectrogramGenerator::run is not part of this repository; per section 4.2
of the spec its plan performs an in-place length-N complex forward DFT.
Bin j of the unnormalised forward DFT of buf. -/
noncomputable def dftBin (x : Nat → ℂ) (len j : Nat) : ℂ :=
  ∑ i ∈ Finset.range len,
    x i * Complex.exp (-(2 * (Real.pi : ℂ) * Complex.I * (j : ℂ) * (i : ℂ)) / (len : ℂ))

/-- Modelled from the spec: in-place Fft::process of rustfft, as the full
forward DFT of the buffer (see dftBin). -/
noncomputable def dftProcess (buf : List ℂ) : List ℂ :=
  (List.range buf.length).map (fun j => dftBin (fun i => buf.getD i 0) buf.length j)

theorem dftProcess_length (buf : List ℂ) : (dftProcess buf).length = buf.length := by
  simp [dftProcess]

namespace SpectrogramGenerator

/-- SpectrogramGenerator::run from src/process/src/lib.rs.  Panics are
modelled as none: samples.windows(fft_len) panics when fft_len = 0, and
the step fft_len - overlap underflows (overlap > fft_len, a panic with
overflow checks) or makes step_by panic with step 0 (overlap = fft_len).
Otherwise: each window is multiplied pointwise by the Hann window, sent
through the forward FFT, truncated to the first fft_len / 2 bins, and
each bin is mapped to sqrt(re^2 + im^2). -/
noncomputable def run (samples : List ℝ) (config : SpectrogramConfig) :
    Option (List (List ℝ)) :=
  if config.fft_len = 0 then none
  else if config.fft_len ≤ config.overlap then none
  else
    let hann := generate_hanning_window config.fft_len
    some ((stepBy (config.fft_len - config.overlap)
        (slidingWindows samples config.fft_len)).map
      (fun window =>
        let scaled : List ℂ :=
          (window.zip hann).map (fun p => ⟨p.1 * p.2, 0⟩)
        let transformed := dftProcess scaled
        (transformed.take (config.fft_len / 2)).map
          (fun v => Real.sqrt (v.re ^ 2 + v.im ^ 2))))

theorem run_eq_some (samples : List ℝ) (config : SpectrogramConfig)
    (h0 : config.fft_len ≠ 0) (h1 : config.overlap < config.fft_len) :
    run samples config =
      some ((stepBy (config.fft_len - config.overlap)
          (slidingWindows samples config.fft_len)).map
        (fun window =>
          ((dftProcess ((window.zip (generate_hanning_window config.fft_len)).map
              (fun p => (⟨p.1 * p.2, 0⟩ : ℂ)))).take (config.fft_len / 2)).map
            (fun v => Real.sqrt (v.re ^ 2 + v.im ^ 2)))) := by
  simp only [run, h0, if_false, Nat.not_le.mpr h1, ite_false]

/-- Frame count of run: ceil((samples.length + 1 - fft_len) / step). -/
theorem run_length (samples : List ℝ) (config : SpectrogramConfig)
    (h0 : config.fft_len ≠ 0) (h1 : config.overlap < config.fft_len)
    (frames : List (List ℝ)) (h : run samples config = some frames) :
    frames.length =
      if config.fft_len ≤ samples.length then
        (samples.length - config.fft_len) / (config.fft_len - config.overlap) + 1
      else 0 := by
  rw [run_eq_some samples config h0 h1] at h
  have hk : 1 ≤ config.fft_len - config.overlap := by omega
  have := congrArg List.length (Option.some.inj h).symm
  rw [List.length_map, stepBy_length _ hk, slidingWindows_length] at this
  rw [this]
  rcases le_or_lt config.fft_len samples.length with hle | hgt
  · rw [if_pos hle]
    have h2 : samples.length + 1 - config.fft_len + (config.fft_len - config.overlap) - 1
        = samples.length - config.fft_len + (config.fft_len - config.overlap) := by omega
    rw [h2, Nat.add_div_right _ hk]
  · rw [if_neg (Nat.not_le.mpr hgt)]
    have h2 : samples.length + 1 - config.fft_len = 0 := by omega
    rw [h2]
    exact Nat.div_eq_of_lt (by omega)

end SpectrogramGenerator

theorem stepBy_sublist (k : Nat) (l : List α) : (stepBy k l).Sublist l := by
  suffices H : ∀ n (l : List α), l.length ≤ n → (stepBy k l).Sublist l from
    H l.length l le_rfl
  intro n
  induction n with
  | zero =>
    intro l hl
    have : l = [] := List.length_eq_zero.mp (Nat.le_zero.mp hl)
    subst this
    simp [stepBy_nil]
  | succ n ih =>
    intro l hl
    cases l with
    | nil => simp [stepBy_nil]
    | cons x xs =>
      rw [stepBy_cons]
      refine List.Sublist.cons₂ x ?_
      have h1 : (stepBy k (xs.drop (k - 1))).Sublist (xs.drop (k - 1)) := by
        refine ih _ ?_
        simp only [List.length_cons] at hl
        simp only [List.length_drop]
        omega
      exact h1.trans (List.drop_sublist _ _)

theorem slidingWindows_mem_length (l : List α) (n : Nat) (w : List α)
    (hw : w ∈ slidingWindows l n) : w.length = n := by
  simp only [slidingWindows, List.mem_map, List.mem_range] at hw
  obtain ⟨i, hi, rfl⟩ := hw
  simp only [List.length_take, List.length_drop]
  omega

namespace SpectrogramGenerator

theorem run_frame_length_mem (samples : List ℝ) (config : SpectrogramConfig)
    (h0 : config.fft_len ≠ 0) (h1 : config.overlap < config.fft_len)
    (frames : List (List ℝ)) (h : run samples config = some frames) :
    ∀ f ∈ frames, f.length = config.fft_len / 2 := by
  rw [run_eq_some samples config h0 h1] at h
  intro f hf
  rw [← Option.some.inj h] at hf
  simp only [List.mem_map] at hf
  obtain ⟨w, hw, rfl⟩ := hf
  have hwmem : w ∈ slidingWindows samples config.fft_len :=
    (stepBy_sublist _ _).mem hw
  have hwlen : w.length = config.fft_len := slidingWindows_mem_length _ _ _ hwmem
  simp only [List.length_map, List.length_take, dftProcess_length, List.length_map,
    List.length_zip, hwlen, generate_hanning_window_length]
  omega

end SpectrogramGenerator

/-- Claim C4: for every sample buffer of length M and config with
0 <= overlap < fft_len, SpectrogramGenerator::run returns exactly
floor((M - L) / (L - O)) + 1 frames when M >= L and zero frames when
M < L; any partial trailing window is dropped. -/
theorem spectrogram_run_frame_count (samples : List ℝ) (config : SpectrogramConfig)
    (h1 : config.overlap < config.fft_len) :
    (SpectrogramGenerator.run samples config).map List.length =
      some (if config.fft_len ≤ samples.length then
        (samples.length - config.fft_len) / (config.fft_len - config.overlap) + 1
      else 0) := by
  have h0 : config.fft_len ≠ 0 := by omega
  obtain ⟨frames, hf⟩ : ∃ frames, SpectrogramGenerator.run samples config = some frames := by
    rw [SpectrogramGenerator.run_eq_some samples config h0 h1]
    exact ⟨_, rfl⟩
  rw [hf, Option.map_some']
  exact congrArg some (SpectrogramGenerator.run_length samples config h0 h1 frames hf)

theorem spectrogram_run_frame_count_witness :
    (1 < 4 ∧
      (SpectrogramGenerator.run (List.replicate 10 (0 : ℝ)) ⟨4, 1⟩).map List.length
        = some 3) := by
  constructor
  · decide
  · have h := spectrogram_run_frame_count (List.replicate 10 (0 : ℝ)) ⟨4, 1⟩
      (by decide)
    simp only [List.length_replicate] at h
    exact h.trans (by norm_num)

/-- Claim C10: run terminates without panicking for every sample buffer
exactly when the config satisfies fft_len >= 1 and overlap < fft_len; a
zero stride (overlap = fft_len) or fft_len = 0 panics (modelled none). -/
theorem spectrogram_run_no_panic_iff (samples : List ℝ) (config : SpectrogramConfig) :
    (SpectrogramGenerator.run samples config).isSome ↔
      (1 ≤ config.fft_len ∧ config.overlap < config.fft_len) := by
  unfold SpectrogramGenerator.run
  rcases Nat.eq_zero_or_pos config.fft_len with h0 | h0
  · simp [h0]
  · rcases le_or_lt config.fft_len config.overlap with hle | hlt
    · have : config.fft_len ≠ 0 := by omega
      simp only [this, if_false, if_pos hle, ite_false]
      simp
      omega
    · have h0' : config.fft_len ≠ 0 := by omega
      simp only [h0', if_false, Nat.not_le.mpr hlt, ite_false]
      simp
      omega


theorem zip_map_getElem? (l1 : List α) (l2 : List β) (f : α × β → γ) (i : Nat)
    (a : α) (b : β) (h1 : l1[i]? = some a) (h2 : l2[i]? = some b) :
    ((l1.zip l2).map f)[i]? = some (f (a, b)) := by
  induction l1 generalizing l2 i with
  | nil => simp at h1
  | cons x l1 ih =>
    cases l2 with
    | nil => simp at h2
    | cons y l2 =>
      cases i with
      | zero =>
        simp only [List.getElem?_cons_zero, Option.some.injEq] at h1 h2
        simp [List.zip_cons_cons, h1, h2]
      | succ n =>
        simp only [List.getElem?_cons_succ] at h1 h2
        simp only [List.zip_cons_cons, List.map_cons, List.getElem?_cons_succ]
        exact ih l2 n h1 h2

/-- Spec-side sequence (claim C5): the complex input x with
x[i] = (s[k * (L - O) + i] * W[i], 0), W the length-L Hann window. -/
noncomputable def specWindowedInput (samples : List ℝ) (L O k : Nat) : Nat → ℂ :=
  fun i => ⟨samples.getD (k * (L - O) + i) 0 *
    (0.5 * (1 - Real.cos (2 * Real.pi * (i : ℝ) / (L : ℝ)))), 0⟩

/-- Claim C5: for 0 <= O < L and buffer length M >= L, frame k of
SpectrogramGenerator::run has length L / 2, and its j-th entry equals
sqrt(re^2 + im^2) of bin j of the length-L forward DFT of the complex
sequence x[i] = (s[k * (L - O) + i] * W[i], 0), W the length-L Hann
window. -/
theorem spectrogram_run_frame_content (samples : List ℝ) (config : SpectrogramConfig)
    (h1 : config.overlap < config.fft_len)
    (hM : config.fft_len ≤ samples.length)
    (frames : List (List ℝ)) (hrun : SpectrogramGenerator.run samples config = some frames)
    (k : Nat) (hk : k < frames.length) :
    ∃ frame, frames[k]? = some frame ∧ frame.length = config.fft_len / 2 ∧
      ∀ j < config.fft_len / 2,
        frame[j]? = some (Real.sqrt
          ((dftBin (specWindowedInput samples config.fft_len config.overlap k)
              config.fft_len j).re ^ 2 +
           (dftBin (specWindowedInput samples config.fft_len config.overlap k)
              config.fft_len j).im ^ 2)) := by
  have h0 : config.fft_len ≠ 0 := by omega
  set L := config.fft_len with hLdef
  set O := config.overlap with hOdef
  set step := L - O with hstepdef
  have hstep : 1 ≤ step := by omega
  rw [SpectrogramGenerator.run_eq_some samples config h0 h1] at hrun
  have hframes := (Option.some.inj hrun).symm
  set ws := slidingWindows samples L with hwsdef
  have hwslen : ws.length = samples.length + 1 - L := slidingWindows_length _ _
  have hframeslen : frames.length = (ws.length + step - 1) / step := by
    rw [hframes, List.length_map, stepBy_length _ hstep]
  have hkstep : k * step ≤ samples.length - L := by
    have hk1 : k + 1 ≤ (ws.length + step - 1) / step := by
      rw [hframeslen] at hk; omega
    have h2 : (k + 1) * step ≤ ws.length + step - 1 :=
      (Nat.le_div_iff_mul_le hstep).mp hk1
    have h3 : (k + 1) * step = k * step + step := by ring
    omega
  have hoff : k * step < samples.length + 1 - L := by omega
  have hwsget : ws[k * step]? = some ((samples.drop (k * step)).take L) :=
    slidingWindows_getElem? samples L (k * step) hoff
  set window := (samples.drop (k * step)).take L with hwindef
  have hwinlen : window.length = L := by
    rw [hwindef]
    simp only [List.length_take, List.length_drop]
    omega
  set hann := generate_hanning_window L with hhanndef
  have hhannlen : hann.length = L := generate_hanning_window_length L
  set scaled := (window.zip hann).map (fun p => (⟨p.1 * p.2, 0⟩ : ℂ)) with hscaleddef
  have hscaledlen : scaled.length = L := by
    rw [hscaleddef]
    simp only [List.length_map, List.length_zip, hwinlen, hhannlen, Nat.min_self]
  refine ⟨((dftProcess scaled).take (L / 2)).map
    (fun v => Real.sqrt (v.re ^ 2 + v.im ^ 2)), ?_, ?_, ?_⟩
  · rw [hframes, List.getElem?_map, stepBy_getElem? step hstep ws k, hwsget]
    rfl
  · simp only [List.length_map, List.length_take, dftProcess_length, hscaledlen]
    omega
  · intro j hj
    have hjL : j < L := by omega
    rw [List.getElem?_map, List.getElem?_take]
    rw [if_pos hj]
    have hdft : (dftProcess scaled)[j]? =
        some (dftBin (fun i => scaled.getD i 0) scaled.length j) := by
      rw [dftProcess, List.getElem?_map, List.getElem?_range (by omega : j < scaled.length)]
      rfl
    rw [hdft, hscaledlen, Option.map_some']
    have hcong : dftBin (fun i => scaled.getD i 0) L j =
        dftBin (specWindowedInput samples L O k) L j := by
      unfold dftBin
      refine Finset.sum_congr rfl ?_
      intro i hi
      have hiL : i < L := Finset.mem_range.mp hi
      have hsampbound : k * step + i < samples.length := by omega
      have hwin? : window[i]? = some (samples.getD (k * step + i) 0) := by
        rw [hwindef, List.getElem?_take, if_pos hiL, List.getElem?_drop,
          List.getD_eq_getElem?_getD, List.getElem?_eq_getElem hsampbound]
        rfl
      have hhann? : hann[i]? =
          some (0.5 * (1 - Real.cos ((2 * Real.pi) * ((i : ℝ) / (L : ℝ))))) := by
        rw [hhanndef]
        exact generate_hanning_window_getElem? L i hiL
      have hscaled? : scaled[i]? =
          some (⟨samples.getD (k * step + i) 0 *
            (0.5 * (1 - Real.cos ((2 * Real.pi) * ((i : ℝ) / (L : ℝ))))), 0⟩ : ℂ) := by
        rw [hscaleddef]
        exact zip_map_getElem? window hann _ i _ _ hwin? hhann?
      have hscaledD : scaled.getD i 0 =
          (⟨samples.getD (k * step + i) 0 *
            (0.5 * (1 - Real.cos ((2 * Real.pi) * ((i : ℝ) / (L : ℝ))))), 0⟩ : ℂ) := by
        rw [List.getD_eq_getElem?_getD, hscaled?]
        rfl
      have hspec : specWindowedInput samples L O k i =
          (⟨samples.getD (k * step + i) 0 *
            (0.5 * (1 - Real.cos ((2 * Real.pi) * ((i : ℝ) / (L : ℝ))))), 0⟩ : ℂ) := by
        unfold specWindowedInput
        rw [← hstepdef, mul_div_assoc]
      simp only [hscaledD, hspec]
    rw [hcong]

theorem spectrogram_run_frame_content_witness :
    (1 < 2 ∧ 2 ≤ ([(1 : ℝ), 2]).length) ∧
    (∃ frame, ((SpectrogramGenerator.run [(1 : ℝ), 2] ⟨2, 1⟩).getD [])[0]? = some frame ∧
      frame.length = 2 / 2 ∧
      ∀ j < 2 / 2, frame[j]? = some (Real.sqrt
        ((dftBin (specWindowedInput [(1 : ℝ), 2] 2 1 0) 2 j).re ^ 2 +
         (dftBin (specWindowedInput [(1 : ℝ), 2] 2 1 0) 2 j).im ^ 2))) := by
  have hrun : SpectrogramGenerator.run [(1 : ℝ), 2] ⟨2, 1⟩ =
      some ((SpectrogramGenerator.run [(1 : ℝ), 2] ⟨2, 1⟩).getD []) := by
    rw [SpectrogramGenerator.run_eq_some _ _ (by decide) (by decide)]
    rfl
  have hk : 0 < ((SpectrogramGenerator.run [(1 : ℝ), 2] ⟨2, 1⟩).getD []).length := by
    have h := SpectrogramGenerator.run_length [(1 : ℝ), 2] ⟨2, 1⟩
      (by decide) (by decide) _ hrun
    rw [h]
    decide
  exact ⟨⟨by decide, by decide⟩,
    spectrogram_run_frame_content [(1 : ℝ), 2] ⟨2, 1⟩ (by decide) (by decide)
      _ hrun 0 hk⟩

/-!  A faithful model of the f64 arithmetic in insert_sectrogram_for_song
(src/database/src/lib.rs lines 98-101).  An IEEE binary64 operation on
values in the normal range returns the exact rational result rounded to
53 significant bits, to nearest, ties to even.  All values arising in the
timestamp computation are nonnegative and far from overflow/subnormal
range, so rounding to 53 significant bits is the exact semantics. -/

/-- Round a rational to the nearest integer, ties to even. -/
def rte (q : ℚ) : ℤ :=
  if q - (⌊q⌋ : ℚ) < 1/2 then ⌊q⌋
  else if 1/2 < q - (⌊q⌋ : ℚ) then ⌊q⌋ + 1
  else if ⌊q⌋ % 2 = 0 then ⌊q⌋ else ⌊q⌋ + 1

/-- Binary exponent of a positive rational: the e with 2^e ≤ q < 2^(e+1). -/
def floatExp (q : ℚ) : ℤ :=
  if 1 ≤ q then (Nat.log2 ⌊q⌋.toNat : ℤ)
  else if (2 : ℚ) ^ (-(Nat.log2 ⌊q⁻¹⌋.toNat : ℤ)) ≤ q then -(Nat.log2 ⌊q⁻¹⌋.toNat : ℤ)
  else -(Nat.log2 ⌊q⁻¹⌋.toNat : ℤ) - 1

/-- Round a rational to 53 significant binary digits, nearest, ties to
even: the value an f64 operation with exact result q returns. -/
def round53 (q : ℚ) : ℚ :=
  if q = 0 then 0
  else if 0 < q then
    (rte (q * (2 : ℚ) ^ ((52 : ℤ) - floatExp q)) : ℚ) * (2 : ℚ) ^ (floatExp q - 52)
  else
    -((rte ((-q) * (2 : ℚ) ^ ((52 : ℤ) - floatExp (-q))) : ℚ) *
      (2 : ℚ) ^ (floatExp (-q) - 52))

theorem round53_zero : round53 0 = 0 := by
  simp [round53]

theorem rte_err (q : ℚ) : |(rte q : ℚ) - q| ≤ 1/2 := by
  have h0 : ((⌊q⌋ : ℚ)) ≤ q := Int.floor_le q
  have h1 : q < (⌊q⌋ : ℚ) + 1 := Int.lt_floor_add_one q
  unfold rte
  split
  · rename_i hr
    rw [abs_le]
    constructor <;> linarith
  · split
    · rename_i hr1 hr2
      push_cast
      rw [abs_le]
      constructor <;> linarith
    · rename_i hr1 hr2
      have hr : q - (⌊q⌋ : ℚ) = 1/2 := by linarith [not_lt.mp hr1, not_lt.mp hr2]
      split
      · rw [abs_le]; constructor <;> linarith
      · push_cast
        rw [abs_le]
        constructor <;> linarith

theorem floatExp_spec (q : ℚ) (hq : 0 < q) :
    (2 : ℚ) ^ (floatExp q) ≤ q ∧ q < (2 : ℚ) ^ (floatExp q + 1) := by
  have hcast : ∀ n : Nat, ((2 : ℚ)) ^ ((n : ℤ)) = ((2 ^ n : ℕ) : ℚ) := by
    intro n
    rw [zpow_natCast]
    push_cast
    ring
  unfold floatExp
  split
  · rename_i h1
    set n := ⌊q⌋.toNat with hn
    have hfl : 1 ≤ ⌊q⌋ := by
      rw [Int.le_floor]
      exact_mod_cast h1
    have hn0 : n ≠ 0 := by omega
    have hle : 2 ^ Nat.log2 n ≤ n := Nat.log2_self_le hn0
    have hlt : n < 2 ^ (Nat.log2 n + 1) := Nat.lt_log2_self
    have hnfl : ((n : ℚ)) = ((⌊q⌋ : ℚ)) := by
      have hnn : (n : ℤ) = ⌊q⌋ := Int.toNat_of_nonneg (by omega)
      exact_mod_cast congrArg (fun z : ℤ => (z : ℚ)) hnn
    have hnq : ((n : ℚ)) ≤ q := by
      have hfq : ((⌊q⌋ : ℚ)) ≤ q := Int.floor_le q
      linarith
    have hqn : q < (n : ℚ) + 1 := by
      have hfq : q < ((⌊q⌋ : ℚ)) + 1 := Int.lt_floor_add_one q
      linarith
    constructor
    · rw [hcast]
      calc ((2 ^ Nat.log2 n : ℕ) : ℚ) ≤ (n : ℚ) := by exact_mod_cast hle
        _ ≤ q := hnq
    · have hexp : ((Nat.log2 n : ℤ)) + 1 = ((Nat.log2 n + 1 : ℕ) : ℤ) := by push_cast; ring
      rw [hexp, hcast]
      have h2 : (n : ℚ) + 1 ≤ ((2 ^ (Nat.log2 n + 1) : ℕ) : ℚ) := by exact_mod_cast hlt
      linarith
  · rename_i h1
    have hq1 : q < 1 := lt_of_not_le h1
    have ht1 : 1 < q⁻¹ := one_lt_inv_iff₀.mpr ⟨hq, hq1⟩
    have htpos : 0 < q⁻¹ := by linarith
    set m := ⌊q⁻¹⌋.toNat with hm
    have hfl : 1 ≤ ⌊q⁻¹⌋ := by
      rw [Int.le_floor]
      exact_mod_cast le_of_lt ht1
    have hm0 : m ≠ 0 := by omega
    have hle : 2 ^ Nat.log2 m ≤ m := Nat.log2_self_le hm0
    have hlt : m < 2 ^ (Nat.log2 m + 1) := Nat.lt_log2_self
    have hmfl : ((m : ℚ)) = ((⌊q⁻¹⌋ : ℚ)) := by
      have hnn : (m : ℤ) = ⌊q⁻¹⌋ := Int.toNat_of_nonneg (by omega)
      exact_mod_cast congrArg (fun z : ℤ => (z : ℚ)) hnn
    have hmt : ((m : ℚ)) ≤ q⁻¹ := by
      have hfq : ((⌊q⁻¹⌋ : ℚ)) ≤ q⁻¹ := Int.floor_le _
      linarith
    have htm : q⁻¹ < (m : ℚ) + 1 := by
      have hfq : q⁻¹ < ((⌊q⁻¹⌋ : ℚ)) + 1 := Int.lt_floor_add_one _
      linarith
    have hmpos : (0 : ℚ) < (m : ℚ) := by exact_mod_cast Nat.pos_of_ne_zero hm0
    have key1 : q ≤ ((2 : ℚ)) ^ (-(Nat.log2 m : ℤ)) := by
      have h2 : ((2 ^ Nat.log2 m : ℕ) : ℚ) ≤ (m : ℚ) := by exact_mod_cast hle
      have hpow : (0 : ℚ) < ((2 ^ Nat.log2 m : ℕ) : ℚ) := by positivity
      have hq2 : q ≤ (m : ℚ)⁻¹ := by
        have h3 := inv_anti₀ hmpos hmt
        rwa [inv_inv] at h3
      have hinv : (m : ℚ)⁻¹ ≤ (((2 ^ Nat.log2 m : ℕ) : ℚ))⁻¹ := inv_anti₀ hpow h2
      have hzp : ((2 : ℚ)) ^ (-(Nat.log2 m : ℤ)) = (((2 ^ Nat.log2 m : ℕ) : ℚ))⁻¹ := by
        rw [zpow_neg, hcast]
      rw [hzp]
      linarith
    have key2 : ((2 : ℚ)) ^ (-(Nat.log2 m : ℤ) - 1) < q := by
      have h2 : (m : ℚ) + 1 ≤ ((2 ^ (Nat.log2 m + 1) : ℕ) : ℚ) := by exact_mod_cast hlt
      have h3 : q⁻¹ < ((2 ^ (Nat.log2 m + 1) : ℕ) : ℚ) := by linarith
      have h4 := inv_strictAnti₀ htpos h3
      rw [inv_inv] at h4
      have hzp : ((2 : ℚ)) ^ (-(Nat.log2 m : ℤ) - 1) =
          (((2 ^ (Nat.log2 m + 1) : ℕ) : ℚ))⁻¹ := by
        have hexp : -(Nat.log2 m : ℤ) - 1 = -((Nat.log2 m + 1 : ℕ) : ℤ) := by push_cast; ring
        rw [hexp, zpow_neg, hcast]
      rw [hzp]
      exact h4
    split
    · rename_i hcase
      refine ⟨hcase, ?_⟩
      calc q ≤ ((2 : ℚ)) ^ (-(Nat.log2 m : ℤ)) := key1
        _ < ((2 : ℚ)) ^ (-(Nat.log2 m : ℤ) + 1) := zpow_lt_zpow_right₀ one_lt_two (by omega)
    · rename_i hcase
      constructor
      · exact le_of_lt key2
      · have : -(Nat.log2 m : ℤ) - 1 + 1 = -(Nat.log2 m : ℤ) := by ring
        rw [this]
        exact lt_of_not_le hcase

theorem round53_err (q : ℚ) (hq : 0 < q) :
    |round53 q - q| ≤ q * ((2 : ℚ) ^ (53 : ℕ))⁻¹ := by
  have hne : q ≠ 0 := ne_of_gt hq
  unfold round53
  rw [if_neg hne, if_pos hq]
  obtain ⟨hlo, hhi⟩ := floatExp_spec q hq
  set e := floatExp q with he
  set m := q * (2 : ℚ) ^ ((52 : ℤ) - e) with hm
  have hppos : (0 : ℚ) < (2 : ℚ) ^ (e - (52 : ℤ)) := zpow_pos two_pos _
  have hqm : m * (2 : ℚ) ^ (e - (52 : ℤ)) = q := by
    rw [hm, mul_assoc, ← zpow_add₀ (two_ne_zero (α := ℚ))]
    have hx : (52 : ℤ) - e + (e - 52) = 0 := by ring
    rw [hx, zpow_zero, mul_one]
  have hdist : |(rte m : ℚ) * (2 : ℚ) ^ (e - (52 : ℤ)) - q| =
      |(rte m : ℚ) - m| * (2 : ℚ) ^ (e - (52 : ℤ)) := by
    conv_lhs => rw [← hqm]
    rw [← sub_mul, abs_mul, abs_of_pos hppos]
  rw [hdist]
  have h1 : |(rte m : ℚ) - m| ≤ 1/2 := rte_err m
  have h2 : |(rte m : ℚ) - m| * (2 : ℚ) ^ (e - (52 : ℤ)) ≤
      (1/2) * (2 : ℚ) ^ (e - (52 : ℤ)) :=
    mul_le_mul_of_nonneg_right h1 (le_of_lt hppos)
  have h3 : (1/2 : ℚ) * (2 : ℚ) ^ (e - (52 : ℤ)) = (2 : ℚ) ^ (e - (53 : ℤ)) := by
    have hx : (2 : ℚ) ^ (e - (52 : ℤ)) = 2 * (2 : ℚ) ^ (e - (53 : ℤ)) := by
      rw [show e - (52 : ℤ) = 1 + (e - 53) by ring,
        zpow_add₀ (two_ne_zero (α := ℚ)), zpow_one]
    rw [hx]
    ring
  have h4 : (2 : ℚ) ^ (e - (53 : ℤ)) ≤ q * (2 : ℚ) ^ (-53 : ℤ) := by
    have hx : (2 : ℚ) ^ (e - (53 : ℤ)) = (2 : ℚ) ^ e * (2 : ℚ) ^ (-53 : ℤ) := by
      rw [show e - (53 : ℤ) = e + (-53) by ring,
        zpow_add₀ (two_ne_zero (α := ℚ))]
    rw [hx]
    exact mul_le_mul_of_nonneg_right hlo (le_of_lt (zpow_pos two_pos _))
  have h5 : q * (2 : ℚ) ^ (-53 : ℤ) = q * ((2 : ℚ) ^ (53 : ℕ))⁻¹ := by
    rw [zpow_neg]
    norm_num
  calc |(rte m : ℚ) - m| * (2 : ℚ) ^ (e - (52 : ℤ))
      ≤ 1/2 * (2 : ℚ) ^ (e - (52 : ℤ)) := h2
    _ = (2 : ℚ) ^ (e - (53 : ℤ)) := h3
    _ ≤ q * (2 : ℚ) ^ (-53 : ℤ) := h4
    _ = q * ((2 : ℚ) ^ (53 : ℕ))⁻¹ := h5

theorem round53_bounds (q : ℚ) (hq : 0 < q) :
    q * (1 - (1 / 9007199254740992 : ℚ)) ≤ round53 q ∧
    round53 q ≤ q * (1 + (1 / 9007199254740992 : ℚ)) := by
  have h := round53_err q hq
  have hc : q * ((2 : ℚ) ^ (53 : ℕ))⁻¹ = q * (1 / 9007199254740992 : ℚ) := by
    norm_num
  rw [hc, abs_le] at h
  constructor <;> nlinarith [h.1, h.2]

/-- Rust numeric cast from f64 to i64 (as i64): truncation toward zero. -/
def truncToI64 (q : ℚ) : ℤ := if 0 ≤ q then ⌊q⌋ else -⌊-q⌋

/-- The millisecond timestamp computation of insert_sectrogram_for_song in
src/database/src/lib.rs, performed in f64 arithmetic:
(offset as f64 * 1.0 / samplerate as f64 * 1000.0) as i64, with every
f64 operation modelled by round53. -/
def segment_time_ms (offset samplerate : Nat) : ℤ :=
  truncToI64 (round53 (round53 (round53 (round53 ((offset : ℚ)) * 1) /
    round53 ((samplerate : ℚ))) * 1000))

/-- A row of the segments table, as sent on the COPY stream by
insert_sectrogram_for_song (src/database/src/lib.rs). -/
structure SegmentRow where
  song_id : ℤ
  segment_index : ℕ
  vec : List ℝ
  start_ts_ms : ℤ
  end_ts_ms : ℤ

/-- insert_sectrogram_for_song from src/database/src/lib.rs.  The result
of the initial count query (count of rows with this song_id) is passed as
existing_segments; if it is positive the task panics (modelled as
Except.error with the panic message) before any row is sent; otherwise
one row per spectrogram frame is sent on the COPY stream, with f64
millisecond timestamps (see segment_time_ms). -/
def insert_sectrogram_for_song (existing_segments : Nat) (song_id : ℤ)
    (spectrogram : List (List ℝ)) (samplerate fft_size fft_overlap : Nat) :
    Except String (List SegmentRow) :=
  if existing_segments > 0 then
    Except.error "song already exists, not inserting new values"
  else
    Except.ok ((spectrogram.enum).map (fun p =>
      { song_id := song_id
        segment_index := p.1
        vec := p.2
        start_ts_ms := segment_time_ms ((fft_size - fft_overlap) * p.1) samplerate
        end_ts_ms :=
          segment_time_ms ((fft_size - fft_overlap) * p.1 + fft_size) samplerate }))

theorem segment_time_ms_bounds (x s : Nat) (hs : 1 ≤ s) (hs40 : s ≤ 2 ^ 40)
    (hx40 : x ≤ 2 ^ 40) :
    (x : ℚ) * 1000 / (s : ℚ) - 2 < (segment_time_ms x s : ℚ) ∧
    (segment_time_ms x s : ℚ) < (x : ℚ) * 1000 / (s : ℚ) + 1 := by
  rcases Nat.eq_zero_or_pos x with hx0 | hxpos
  · subst hx0
    have hz : segment_time_ms 0 s = 0 := by
      unfold segment_time_ms
      rw [Nat.cast_zero, round53_zero, zero_mul, round53_zero, zero_div,
        round53_zero, zero_mul, round53_zero]
      unfold truncToI64
      norm_num
    rw [hz]
    constructor
    · norm_num
    · norm_num
  · have hspos : (0 : ℚ) < (s : ℚ) := by exact_mod_cast Nat.pos_of_ne_zero (by omega)
    have hsq : (1 : ℚ) ≤ (s : ℚ) := by exact_mod_cast hs
    have hxq : (1 : ℚ) ≤ (x : ℚ) := by exact_mod_cast hxpos
    have hxU : (x : ℚ) ≤ 2 ^ 40 := by exact_mod_cast hx40
    have hsU : (s : ℚ) ≤ 2 ^ 40 := by exact_mod_cast hs40
    have hxpos2 : (0 : ℚ) < (x : ℚ) := by linarith
    obtain ⟨ha1, ha2⟩ := round53_bounds ((x : ℚ)) hxpos2
    set a := round53 ((x : ℚ)) with hadef
    have hapos : (0 : ℚ) < a := by linarith
    obtain ⟨hb1, hb2⟩ := round53_bounds (a * 1)
      (by rw [mul_one]; exact hapos)
    set b := round53 (a * 1) with hbdef
    have hbpos : (0 : ℚ) < b := by linarith
    obtain ⟨hc1, hc2⟩ := round53_bounds ((s : ℚ)) hspos
    set c := round53 ((s : ℚ)) with hcdef
    have hcpos : (0 : ℚ) < c := by linarith
    have hrpos : (0 : ℚ) < b / c := div_pos hbpos hcpos
    obtain ⟨hd1, hd2⟩ := round53_bounds (b / c) hrpos
    set d := round53 (b / c) with hddef
    have hdpos : (0 : ℚ) < d := by linarith
    obtain ⟨he1, he2⟩ := round53_bounds (d * 1000) (by linarith)
    set e := round53 (d * 1000) with hedef
    have hepos : (0 : ℚ) < e := by linarith
    have hbx2 : b ≤ (x : ℚ) * ((1 + (1 / 9007199254740992 : ℚ)) *
        (1 + (1 / 9007199254740992 : ℚ))) := by linarith
    have hbx1 : (x : ℚ) * ((1 - (1 / 9007199254740992 : ℚ)) *
        (1 - (1 / 9007199254740992 : ℚ))) ≤ b := by linarith
    have hE1 : e ≤ (b / c) * (1000 * ((1 + (1 / 9007199254740992 : ℚ)) *
        (1 + (1 / 9007199254740992 : ℚ)))) := by linarith
    have hE2 : (b / c) * (1000 * ((1 - (1 / 9007199254740992 : ℚ)) *
        (1 - (1 / 9007199254740992 : ℚ)))) ≤ e := by linarith
    have hrc : (b / c) * c = b := div_mul_cancel₀ b (ne_of_gt hcpos)
    have hec2 : e * c ≤ b * (1000 * ((1 + (1 / 9007199254740992 : ℚ)) *
        (1 + (1 / 9007199254740992 : ℚ)))) := by
      have hmul := mul_le_mul_of_nonneg_right hE1 (le_of_lt hcpos)
      have hre : (b / c) * (1000 * ((1 + (1 / 9007199254740992 : ℚ)) *
          (1 + (1 / 9007199254740992 : ℚ)))) * c =
          b * (1000 * ((1 + (1 / 9007199254740992 : ℚ)) *
          (1 + (1 / 9007199254740992 : ℚ)))) := by
        calc (b / c) * (1000 * ((1 + (1 / 9007199254740992 : ℚ)) *
            (1 + (1 / 9007199254740992 : ℚ)))) * c
            = ((b / c) * c) * (1000 * ((1 + (1 / 9007199254740992 : ℚ)) *
              (1 + (1 / 9007199254740992 : ℚ)))) := by ring
          _ = b * (1000 * ((1 + (1 / 9007199254740992 : ℚ)) *
              (1 + (1 / 9007199254740992 : ℚ)))) := by rw [hrc]
      linarith
    have hec1 : b * (1000 * ((1 - (1 / 9007199254740992 : ℚ)) *
        (1 - (1 / 9007199254740992 : ℚ)))) ≤ e * c := by
      have hmul := mul_le_mul_of_nonneg_right hE2 (le_of_lt hcpos)
      have hre : (b / c) * (1000 * ((1 - (1 / 9007199254740992 : ℚ)) *
          (1 - (1 / 9007199254740992 : ℚ)))) * c =
          b * (1000 * ((1 - (1 / 9007199254740992 : ℚ)) *
          (1 - (1 / 9007199254740992 : ℚ)))) := by
        calc (b / c) * (1000 * ((1 - (1 / 9007199254740992 : ℚ)) *
            (1 - (1 / 9007199254740992 : ℚ)))) * c
            = ((b / c) * c) * (1000 * ((1 - (1 / 9007199254740992 : ℚ)) *
              (1 - (1 / 9007199254740992 : ℚ)))) := by ring
          _ = b * (1000 * ((1 - (1 / 9007199254740992 : ℚ)) *
              (1 - (1 / 9007199254740992 : ℚ)))) := by rw [hrc]
      linarith
    have hxc_up : e * c ≤ (x : ℚ) * ((1 + (1 / 9007199254740992 : ℚ)) *
        (1 + (1 / 9007199254740992 : ℚ))) * (1000 * ((1 + (1 / 9007199254740992 : ℚ)) *
        (1 + (1 / 9007199254740992 : ℚ)))) := by
      have hmul := mul_le_mul_of_nonneg_right hbx2
        (show (0 : ℚ) ≤ 1000 * ((1 + (1 / 9007199254740992 : ℚ)) *
          (1 + (1 / 9007199254740992 : ℚ))) by norm_num)
      linarith
    have hxc_lo : (x : ℚ) * ((1 - (1 / 9007199254740992 : ℚ)) *
        (1 - (1 / 9007199254740992 : ℚ))) * (1000 * ((1 - (1 / 9007199254740992 : ℚ)) *
        (1 - (1 / 9007199254740992 : ℚ)))) ≤ e * c := by
      have hmul := mul_le_mul_of_nonneg_right hbx1
        (show (0 : ℚ) ≤ 1000 * ((1 - (1 / 9007199254740992 : ℚ)) *
          (1 - (1 / 9007199254740992 : ℚ))) by norm_num)
      linarith
    set E := (x : ℚ) * 1000 / (s : ℚ) with hEdef
    have hEpos : 0 < E := by positivity
    have hEs : E * (s : ℚ) = (x : ℚ) * 1000 := div_mul_cancel₀ _ (ne_of_gt hspos)
    have keyU : (x : ℚ) * ((1 + (1 / 9007199254740992 : ℚ)) *
        (1 + (1 / 9007199254740992 : ℚ))) * (1000 * ((1 + (1 / 9007199254740992 : ℚ)) *
        (1 + (1 / 9007199254740992 : ℚ)))) <
        ((x : ℚ) * 1000) * (1 - (1 / 9007199254740992 : ℚ)) +
        (s : ℚ) * (1 - (1 / 9007199254740992 : ℚ)) := by
      linarith [hxU, hsq]
    have hrhs : ((x : ℚ) * 1000) * (1 - (1 / 9007199254740992 : ℚ)) +
        (s : ℚ) * (1 - (1 / 9007199254740992 : ℚ)) =
        (E + 1) * ((s : ℚ) * (1 - (1 / 9007199254740992 : ℚ))) := by
      have hexp : (E + 1) * ((s : ℚ) * (1 - (1 / 9007199254740992 : ℚ))) =
          (E * (s : ℚ)) * (1 - (1 / 9007199254740992 : ℚ)) +
          (s : ℚ) * (1 - (1 / 9007199254740992 : ℚ)) := by ring
      rw [hexp, hEs]
    have hcleU : (E + 1) * ((s : ℚ) * (1 - (1 / 9007199254740992 : ℚ))) ≤
        (E + 1) * c := mul_le_mul_of_nonneg_left hc1 (by positivity)
    have heEU : e * c < (E + 1) * c := by
      rw [hrhs] at keyU
      linarith
    have heU : e < E + 1 := lt_of_mul_lt_mul_right heEU (le_of_lt hcpos)
    have hcE : E * c ≤ E * ((s : ℚ) * (1 + (1 / 9007199254740992 : ℚ))) :=
      mul_le_mul_of_nonneg_left hc2 (le_of_lt hEpos)
    have hcE2 : E * ((s : ℚ) * (1 + (1 / 9007199254740992 : ℚ))) =
        ((x : ℚ) * 1000) * (1 + (1 / 9007199254740992 : ℚ)) := by
      have hexp : E * ((s : ℚ) * (1 + (1 / 9007199254740992 : ℚ))) =
          (E * (s : ℚ)) * (1 + (1 / 9007199254740992 : ℚ)) := by ring
      rw [hexp, hEs]
    have keyL : ((x : ℚ) * 1000) * (1 + (1 / 9007199254740992 : ℚ)) -
        (x : ℚ) * ((1 - (1 / 9007199254740992 : ℚ)) * (1 - (1 / 9007199254740992 : ℚ))) *
        (1000 * ((1 - (1 / 9007199254740992 : ℚ)) * (1 - (1 / 9007199254740992 : ℚ)))) ≤
        (s : ℚ) * (1 - (1 / 9007199254740992 : ℚ)) := by
      linarith [hxU, hsq]
    have hEec : E * c ≤ e * c + c := by
      have h1 : E * c ≤ ((x : ℚ) * 1000) * (1 + (1 / 9007199254740992 : ℚ)) := by
        rw [← hcE2]
        exact hcE
      linarith
    have hEe : E ≤ e + 1 := by
      have h2 : E * c ≤ (e + 1) * c := by
        have hexp : (e + 1) * c = e * c + c := by ring
        rw [hexp]
        exact hEec
      exact (mul_le_mul_right hcpos).mp h2
    have hfold : segment_time_ms x s = truncToI64 e := rfl
    have htr : segment_time_ms x s = ⌊e⌋ := by
      rw [hfold]
      unfold truncToI64
      rw [if_pos (le_of_lt hepos)]
    rw [htr]
    constructor
    · have hfl : e - 1 < ((⌊e⌋ : ℤ) : ℚ) := Int.sub_one_lt_floor e
      linarith
    · have hfl2 : ((⌊e⌋ : ℤ) : ℚ) ≤ e := Int.floor_le e
      linarith

theorem rte_eq_of_lt_half (q : ℚ) (z : ℤ) (h1 : (z : ℚ) ≤ q) (h2 : q < (z : ℚ) + 1/2) :
    rte q = z := by
  have hfl : ⌊q⌋ = z := Int.floor_eq_iff.mpr ⟨h1, by linarith⟩
  unfold rte
  rw [hfl, if_pos (by linarith)]

theorem floatExp_eq (q : ℚ) (e : ℤ) (hq : 0 < q)
    (h1 : (2 : ℚ) ^ e ≤ q) (h2 : q < (2 : ℚ) ^ (e + 1)) :
    floatExp q = e := by
  obtain ⟨g1, g2⟩ := floatExp_spec q hq
  by_contra hne
  rcases lt_or_gt_of_ne hne with hlt | hgt
  · have hmono : (2 : ℚ) ^ (floatExp q + 1) ≤ (2 : ℚ) ^ e :=
      zpow_le_zpow_right₀ one_le_two (by omega)
    linarith
  · have hmono : (2 : ℚ) ^ (e + 1) ≤ (2 : ℚ) ^ (floatExp q) :=
      zpow_le_zpow_right₀ one_le_two (by omega)
    linarith

theorem round53_eq (q : ℚ) (e z : ℤ) (hq : 0 < q)
    (he1 : (2 : ℚ) ^ e ≤ q) (he2 : q < (2 : ℚ) ^ (e + 1))
    (hz1 : (z : ℚ) ≤ q * (2 : ℚ) ^ ((52 : ℤ) - e))
    (hz2 : q * (2 : ℚ) ^ ((52 : ℤ) - e) < (z : ℚ) + 1/2) :
    round53 q = (z : ℚ) * (2 : ℚ) ^ (e - (52 : ℤ)) := by
  unfold round53
  rw [if_neg (ne_of_gt hq), if_pos hq, floatExp_eq q e hq he1 he2,
    rte_eq_of_lt_half _ z hz1 hz2]

theorem round53_323 : round53 ((323 : ℚ)) = 323 := by
  have h := round53_eq 323 8 5682276092346368 (by norm_num) (by norm_num) (by norm_num)
    (by norm_num) (by norm_num)
  rw [h]
  norm_num

theorem round53_5 : round53 ((5 : ℚ)) = 5 := by
  have h := round53_eq 5 2 5629499534213120 (by norm_num) (by norm_num) (by norm_num)
    (by norm_num) (by norm_num)
  rw [h]
  norm_num

theorem round53_323_div_5 :
    round53 ((323 : ℚ) / 5) = 4545820873877094 / 70368744177664 := by
  have h := round53_eq (323/5) 6 4545820873877094 (by norm_num) (by norm_num) (by norm_num)
    (by norm_num) (by norm_num)
  rw [h]
  norm_num

theorem round53_almost_64600 :
    round53 ((4545820873877094 / 70368744177664 : ℚ) * 1000) =
      8878556394291199 / 137438953472 := by
  have h := round53_eq ((4545820873877094 / 70368744177664 : ℚ) * 1000) 15 8878556394291199
    (by norm_num) (by norm_num) (by norm_num) (by norm_num) (by norm_num)
  rw [h]
  norm_num

theorem segment_time_ms_323_5 : segment_time_ms 323 5 = 64599 := by
  unfold segment_time_ms
  rw [show ((323 : ℕ) : ℚ) = 323 by norm_num, show ((5 : ℕ) : ℚ) = 5 by norm_num,
    round53_323, round53_5, mul_one, round53_323, round53_323_div_5, round53_almost_64600]
  unfold truncToI64
  rw [if_pos (by norm_num)]
  refine Int.floor_eq_iff.mpr ⟨by norm_num, by norm_num⟩

theorem segment_time_ms_zero (s : Nat) : segment_time_ms 0 s = 0 := by
  unfold segment_time_ms
  rw [Nat.cast_zero, round53_zero, zero_mul, round53_zero, zero_div,
    round53_zero, zero_mul, round53_zero]
  unfold truncToI64
  norm_num

/-- Counterexample to claim C3 as stated: for fft_len = 324, overlap = 1,
samplerate = 5, the stored start timestamp of segment index 1 is 64599,
while floor(1 * (324 - 1) * 1000 / 5) = 64600: the f64 arithmetic of the
source drops below the exact quotient before truncation. -/
theorem timestamp_exact_floor_counterexample :
    (insert_sectrogram_for_song 0 1 [[], []] 5 324 1).toOption.map
        (fun rows => rows.map (fun r => r.start_ts_ms)) = some [0, 64599] ∧
    (1 * (324 - 1) * 1000 / 5 : ℕ) = 64600 := by
  constructor
  · unfold insert_sectrogram_for_song
    rw [if_neg (by norm_num)]
    have h0 : (324 - 1) * 0 = 0 := by norm_num
    have h1 : (324 - 1) * 1 = 323 := by norm_num
    simp only [List.enum, List.enumFrom, List.map_cons, List.map_nil, Except.toOption,
      Option.map_some', h0, h1, segment_time_ms_zero, segment_time_ms_323_5]
  · norm_num

/-- Claim C3 (amended): the stored timestamps are f64 evaluations of
offset / samplerate * 1000 truncated to i64; they are within 1 of the
exact integer floors floor(i * (fft_len - overlap) * 1000 / samplerate)
and floor((i * (fft_len - overlap) + fft_len) * 1000 / samplerate), for
parameters bounded by 2^40 (they can genuinely be one below the exact
floor, see the counterexample). -/
theorem insert_timestamps_within_one_of_floor
    (song_id : ℤ) (spectrogram : List (List ℝ)) (samplerate fft_size fft_overlap : Nat)
    (hs : 1 ≤ samplerate) (hs40 : samplerate ≤ 2 ^ 40)
    (hbound : (fft_size - fft_overlap) * spectrogram.length + fft_size ≤ 2 ^ 40)
    (rows : List SegmentRow)
    (h : insert_sectrogram_for_song 0 song_id spectrogram samplerate fft_size fft_overlap
      = Except.ok rows)
    (i : Nat) (hi : i < rows.length) :
    ∃ row, rows[i]? = some row ∧
      |row.start_ts_ms - ((i * (fft_size - fft_overlap) * 1000 / samplerate : ℕ) : ℤ)| ≤ 1 ∧
      |row.end_ts_ms -
        (((i * (fft_size - fft_overlap) + fft_size) * 1000 / samplerate : ℕ) : ℤ)| ≤ 1 := by
  unfold insert_sectrogram_for_song at h
  rw [if_neg (by omega)] at h
  have hrows := (Except.ok.inj h).symm
  have hlen : rows.length = spectrogram.length := by
    rw [hrows, List.length_map, List.enum_length]
  have hi2 : i < spectrogram.length := by omega
  obtain ⟨seg, hseg⟩ : ∃ seg, spectrogram[i]? = some seg :=
    ⟨_, List.getElem?_eq_getElem hi2⟩
  have henum : spectrogram.enum[i]? = some (i, seg) := by
    rw [List.getElem?_enum, hseg, Option.map_some']
  have hrowi : rows[i]? = some
      { song_id := song_id
        segment_index := i
        vec := seg
        start_ts_ms := segment_time_ms ((fft_size - fft_overlap) * i) samplerate
        end_ts_ms :=
          segment_time_ms ((fft_size - fft_overlap) * i + fft_size) samplerate } := by
    rw [hrows, List.getElem?_map, henum, Option.map_some']
  refine ⟨_, hrowi, ?_, ?_⟩
  · dsimp only
    have hx40 : (fft_size - fft_overlap) * i ≤ 2 ^ 40 := by
      have hm : (fft_size - fft_overlap) * i ≤ (fft_size - fft_overlap) * spectrogram.length :=
        Nat.mul_le_mul_left _ (le_of_lt hi2)
      omega
    obtain ⟨hb1, hb2⟩ := segment_time_ms_bounds ((fft_size - fft_overlap) * i) samplerate
      hs hs40 hx40
    have hfl : ⌊((((fft_size - fft_overlap) * i * 1000 : ℕ)) : ℚ) / ((samplerate : ℕ) : ℚ)⌋ =
        (((fft_size - fft_overlap) * i * 1000 / samplerate : ℕ) : ℤ) :=
      Rat.floor_natCast_div_natCast _ _
    have hcast : ((((fft_size - fft_overlap) * i * 1000 : ℕ)) : ℚ) =
        (((fft_size - fft_overlap) * i : ℕ) : ℚ) * 1000 := by push_cast; ring
    rw [hcast] at hfl
    have hFle : ((((fft_size - fft_overlap) * i * 1000 / samplerate : ℕ) : ℤ) : ℚ) ≤
        (((fft_size - fft_overlap) * i : ℕ) : ℚ) * 1000 / ((samplerate : ℕ) : ℚ) := by
      rw [← hfl]
      exact Int.floor_le _
    have hFlt : (((fft_size - fft_overlap) * i : ℕ) : ℚ) * 1000 / ((samplerate : ℕ) : ℚ) <
        ((((fft_size - fft_overlap) * i * 1000 / samplerate : ℕ) : ℤ) : ℚ) + 1 := by
      rw [← hfl]
      exact Int.lt_floor_add_one _
    have h1 : ((segment_time_ms ((fft_size - fft_overlap) * i) samplerate : ℤ) : ℚ) <
        ((((fft_size - fft_overlap) * i * 1000 / samplerate : ℕ) : ℤ) : ℚ) + 2 := by
      linarith
    have h2 : ((((fft_size - fft_overlap) * i * 1000 / samplerate : ℕ) : ℤ) : ℚ) - 2 <
        ((segment_time_ms ((fft_size - fft_overlap) * i) samplerate : ℤ) : ℚ) := by
      linarith
    have h1i : segment_time_ms ((fft_size - fft_overlap) * i) samplerate <
        (((fft_size - fft_overlap) * i * 1000 / samplerate : ℕ) : ℤ) + 2 := by
      exact_mod_cast h1
    have h2i : (((fft_size - fft_overlap) * i * 1000 / samplerate : ℕ) : ℤ) - 2 <
        segment_time_ms ((fft_size - fft_overlap) * i) samplerate := by
      exact_mod_cast h2
    have hnum : i * (fft_size - fft_overlap) * 1000 = (fft_size - fft_overlap) * i * 1000 := by
      ring
    rw [hnum, abs_le]
    omega
  · dsimp only
    have hy40 : (fft_size - fft_overlap) * i + fft_size ≤ 2 ^ 40 := by
      have hm : (fft_size - fft_overlap) * i ≤ (fft_size - fft_overlap) * spectrogram.length :=
        Nat.mul_le_mul_left _ (le_of_lt hi2)
      omega
    obtain ⟨hb1, hb2⟩ := segment_time_ms_bounds ((fft_size - fft_overlap) * i + fft_size)
      samplerate hs hs40 hy40
    have hfl : ⌊((((fft_size - fft_overlap) * i + fft_size) * 1000 : ℕ) : ℚ) /
        ((samplerate : ℕ) : ℚ)⌋ =
        ((((fft_size - fft_overlap) * i + fft_size) * 1000 / samplerate : ℕ) : ℤ) :=
      Rat.floor_natCast_div_natCast _ _
    have hcast : ((((fft_size - fft_overlap) * i + fft_size) * 1000 : ℕ) : ℚ) =
        (((fft_size - fft_overlap) * i + fft_size : ℕ) : ℚ) * 1000 := by push_cast; ring
    rw [hcast] at hfl
    have hFle : (((((fft_size - fft_overlap) * i + fft_size) * 1000 / samplerate : ℕ) : ℤ) : ℚ) ≤
        (((fft_size - fft_overlap) * i + fft_size : ℕ) : ℚ) * 1000 / ((samplerate : ℕ) : ℚ) := by
      rw [← hfl]
      exact Int.floor_le _
    have hFlt : (((fft_size - fft_overlap) * i + fft_size : ℕ) : ℚ) * 1000 /
        ((samplerate : ℕ) : ℚ) <
        (((((fft_size - fft_overlap) * i + fft_size) * 1000 / samplerate : ℕ) : ℤ) : ℚ) + 1 := by
      rw [← hfl]
      exact Int.lt_floor_add_one _
    have h1 : ((segment_time_ms ((fft_size - fft_overlap) * i + fft_size) samplerate : ℤ) : ℚ) <
        (((((fft_size - fft_overlap) * i + fft_size) * 1000 / samplerate : ℕ) : ℤ) : ℚ) + 2 := by
      linarith
    have h2 : (((((fft_size - fft_overlap) * i + fft_size) * 1000 / samplerate : ℕ) : ℤ) : ℚ) - 2 <
        ((segment_time_ms ((fft_size - fft_overlap) * i + fft_size) samplerate : ℤ) : ℚ) := by
      linarith
    have h1i : segment_time_ms ((fft_size - fft_overlap) * i + fft_size) samplerate <
        ((((fft_size - fft_overlap) * i + fft_size) * 1000 / samplerate : ℕ) : ℤ) + 2 := by
      exact_mod_cast h1
    have h2i : ((((fft_size - fft_overlap) * i + fft_size) * 1000 / samplerate : ℕ) : ℤ) - 2 <
        segment_time_ms ((fft_size - fft_overlap) * i + fft_size) samplerate := by
      exact_mod_cast h2
    have hnum : i * (fft_size - fft_overlap) + fft_size =
        (fft_size - fft_overlap) * i + fft_size := by ring
    rw [hnum, abs_le]
    omega

theorem insert_timestamps_within_one_of_floor_witness :
    (1 ≤ 5 ∧ 5 ≤ 2 ^ 40 ∧ (324 - 1) * ([[], []] : List (List ℝ)).length + 324 ≤ 2 ^ 40) ∧
    (∃ row, (((insert_sectrogram_for_song 0 1 [[], []] 5 324 1).toOption.getD [])[1]?)
        = some row ∧
      |row.start_ts_ms - ((1 * (324 - 1) * 1000 / 5 : ℕ) : ℤ)| ≤ 1 ∧
      |row.end_ts_ms - (((1 * (324 - 1) + 324) * 1000 / 5 : ℕ) : ℤ)| ≤ 1) := by
  have hrowseq : insert_sectrogram_for_song 0 1 [[], []] 5 324 1 =
      Except.ok ((insert_sectrogram_for_song 0 1 [[], []] 5 324 1).toOption.getD []) := rfl
  have hlen :
      1 < ((insert_sectrogram_for_song 0 1 [[], []] 5 324 1).toOption.getD []).length := by
    decide
  exact ⟨⟨by decide, by decide, by decide⟩,
    insert_timestamps_within_one_of_floor 1 [[], []] 5 324 1 (by decide) (by decide)
      (by decide) _ hrowseq 1 hlen⟩

/-- Claim C2: for every recording id for which at least one segment
already exists (a positive count), inserting a spectrogram is rejected:
the task aborts with the panic message and no segment rows are produced;
in the definition the count check precedes the COPY stream, so the
rejection happens before any frame is sent. -/
theorem insert_rejects_existing_segments (existing : Nat) (song_id : ℤ)
    (spectrogram : List (List ℝ)) (samplerate fft_size fft_overlap : Nat)
    (h : 1 ≤ existing) :
    insert_sectrogram_for_song existing song_id spectrogram samplerate fft_size fft_overlap
      = Except.error "song already exists, not inserting new values" := by
  unfold insert_sectrogram_for_song
  rw [if_pos (by omega)]

theorem insert_rejects_existing_segments_witness :
    1 ≤ 1 ∧
    insert_sectrogram_for_song 1 7 [[(0 : ℝ)]] 30000 1280 320
      = Except.error "song already exists, not inserting new values" :=
  ⟨le_refl 1, insert_rejects_existing_segments 1 7 [[(0 : ℝ)]] 30000 1280 320 (le_refl 1)⟩

theorem insert_rows_spec (song_id : ℤ) (spectrogram : List (List ℝ))
    (samplerate fft_size fft_overlap : Nat) (rows : List SegmentRow)
    (h : insert_sectrogram_for_song 0 song_id spectrogram samplerate fft_size fft_overlap
      = Except.ok rows) :
    rows = spectrogram.enum.map (fun p =>
      { song_id := song_id
        segment_index := p.1
        vec := p.2
        start_ts_ms := segment_time_ms ((fft_size - fft_overlap) * p.1) samplerate
        end_ts_ms :=
          segment_time_ms ((fft_size - fft_overlap) * p.1 + fft_size) samplerate }) := by
  unfold insert_sectrogram_for_song at h
  rw [if_neg (by omega)] at h
  exact (Except.ok.inj h).symm

/-- Claim C8: for every recording ingested through the pipeline (with the
constants SPECTROGRAM_CONFIG and TARGET_SAMPLERATE_HZ of the CLI), the
stored segment indices are exactly 0..K-1, the stored start and end
timestamps are strictly increasing in segment index, and every stored
vector has dimension fft_len / 2. -/
theorem ingest_segment_invariants (samples : List ℝ) (hM : samples.length ≤ 2 ^ 40)
    (song_id : ℤ) (frames : List (List ℝ))
    (hrun : SpectrogramGenerator.run samples SPECTROGRAM_CONFIG = some frames)
    (rows : List SegmentRow)
    (hins : insert_sectrogram_for_song 0 song_id frames TARGET_SAMPLERATE_HZ
      SPECTROGRAM_CONFIG.fft_len SPECTROGRAM_CONFIG.overlap = Except.ok rows) :
    rows.map (fun r => r.segment_index) = List.range rows.length ∧
    (∀ (i j : Nat) (ri rj : SegmentRow), i < j → rows[i]? = some ri → rows[j]? = some rj →
      ri.start_ts_ms < rj.start_ts_ms ∧ ri.end_ts_ms < rj.end_ts_ms) ∧
    (∀ r ∈ rows, r.vec.length = SPECTROGRAM_CONFIG.fft_len / 2) := by
  have hrows := insert_rows_spec _ _ _ _ _ _ hins
  have hlen : rows.length = frames.length := by
    rw [hrows, List.length_map, List.enum_length]
  have hcount := SpectrogramGenerator.run_length samples SPECTROGRAM_CONFIG
    (by decide) (by decide) frames hrun
  have hflen : SPECTROGRAM_CONFIG.fft_len = 1280 := rfl
  have hov : SPECTROGRAM_CONFIG.overlap = 320 := rfl
  simp only [hflen, hov] at hcount
  have hoff : ∀ i, i < frames.length → 960 * i + 1280 ≤ samples.length := by
    intro i hi
    rcases le_or_lt 1280 samples.length with hge | hlt2
    · rw [if_pos hge] at hcount
      have hstride : (1280 : ℕ) - 320 = 960 := by norm_num
      rw [hstride] at hcount
      have hi2 : i ≤ (samples.length - 1280) / 960 := by omega
      have hmul := (Nat.le_div_iff_mul_le (by norm_num : 0 < 960)).mp hi2
      omega
    · rw [if_neg (not_le.mpr hlt2)] at hcount
      omega
  have hrowchar : ∀ i ri, rows[i]? = some ri →
      ri.start_ts_ms = segment_time_ms (960 * i) 30000 ∧
      ri.end_ts_ms = segment_time_ms (960 * i + 1280) 30000 := by
    intro i ri hri
    obtain ⟨hi, _⟩ := List.getElem?_eq_some.mp hri
    have hi2 : i < frames.length := by omega
    obtain ⟨seg, hseg⟩ : ∃ seg, frames[i]? = some seg :=
      ⟨_, List.getElem?_eq_getElem hi2⟩
    have henum : frames.enum[i]? = some (i, seg) := by
      rw [List.getElem?_enum, hseg, Option.map_some']
    rw [hrows, List.getElem?_map, henum, Option.map_some'] at hri
    have heq := Option.some.inj hri
    rw [← heq]
    exact ⟨rfl, rfl⟩
  refine ⟨?_, ?_, ?_⟩
  · rw [hlen, hrows, List.map_map]
    have hcomp : ((fun r : SegmentRow => r.segment_index) ∘ (fun p : Nat × List ℝ =>
        ({ song_id := song_id
           segment_index := p.1
           vec := p.2
           start_ts_ms := segment_time_ms
             ((SPECTROGRAM_CONFIG.fft_len - SPECTROGRAM_CONFIG.overlap) * p.1)
             TARGET_SAMPLERATE_HZ
           end_ts_ms := segment_time_ms
             ((SPECTROGRAM_CONFIG.fft_len - SPECTROGRAM_CONFIG.overlap) * p.1 +
               SPECTROGRAM_CONFIG.fft_len) TARGET_SAMPLERATE_HZ } : SegmentRow)))
        = Prod.fst := rfl
    rw [hcomp, List.enum_map_fst]
  · intro i j ri rj hij hri hrj
    obtain ⟨hj, _⟩ := List.getElem?_eq_some.mp hrj
    have hi : i < rows.length := lt_trans hij hj
    obtain ⟨hsi, hei⟩ := hrowchar i ri hri
    obtain ⟨hsj, hej⟩ := hrowchar j rj hrj
    have hoffi := hoff i (by omega)
    have hoffj := hoff j (by omega)
    have hbi := segment_time_ms_bounds (960 * i) 30000 (by norm_num) (by norm_num)
      (by omega)
    have hbj := segment_time_ms_bounds (960 * j) 30000 (by norm_num) (by norm_num)
      (by omega)
    have hbie := segment_time_ms_bounds (960 * i + 1280) 30000 (by norm_num) (by norm_num)
      (by omega)
    have hbje := segment_time_ms_bounds (960 * j + 1280) 30000 (by norm_num) (by norm_num)
      (by omega)
    have hEi : ((960 * i : ℕ) : ℚ) * 1000 / ((30000 : ℕ) : ℚ) = 32 * (i : ℚ) := by
      push_cast
      ring
    have hEj : ((960 * j : ℕ) : ℚ) * 1000 / ((30000 : ℕ) : ℚ) = 32 * (j : ℚ) := by
      push_cast
      ring
    have hEie : ((960 * i + 1280 : ℕ) : ℚ) * 1000 / ((30000 : ℕ) : ℚ) =
        32 * (i : ℚ) + 128/3 := by
      push_cast
      ring
    have hEje : ((960 * j + 1280 : ℕ) : ℚ) * 1000 / ((30000 : ℕ) : ℚ) =
        32 * (j : ℚ) + 128/3 := by
      push_cast
      ring
    rw [hEi] at hbi
    rw [hEj] at hbj
    rw [hEie] at hbie
    rw [hEje] at hbje
    have hcast : (i : ℚ) + 1 ≤ (j : ℚ) := by exact_mod_cast hij
    rw [hsi, hsj, hei, hej]
    constructor
    · have hq : ((segment_time_ms (960 * i) 30000 : ℤ) : ℚ) <
          ((segment_time_ms (960 * j) 30000 : ℤ) : ℚ) := by
        obtain ⟨hb1, hb2⟩ := hbi
        obtain ⟨hb3, hb4⟩ := hbj
        linarith
      exact_mod_cast hq
    · have hq : ((segment_time_ms (960 * i + 1280) 30000 : ℤ) : ℚ) <
          ((segment_time_ms (960 * j + 1280) 30000 : ℤ) : ℚ) := by
        obtain ⟨hb1, hb2⟩ := hbie
        obtain ⟨hb3, hb4⟩ := hbje
        linarith
      exact_mod_cast hq
  · intro r hr
    rw [hrows] at hr
    obtain ⟨p, hp, rfl⟩ := List.mem_map.mp hr
    obtain ⟨pi, pseg⟩ := p
    have hseg : pseg ∈ frames := by
      rw [List.enum_eq_zip_range] at hp
      exact (List.of_mem_zip hp).2
    exact SpectrogramGenerator.run_frame_length_mem samples SPECTROGRAM_CONFIG
      (by decide) (by decide) frames hrun pseg hseg

set_option maxRecDepth 8192 in
theorem ingest_segment_invariants_witness :
    ((List.replicate 1280 (0 : ℝ)).length ≤ 2 ^ 40) ∧
    (((insert_sectrogram_for_song 0 7
        ((SpectrogramGenerator.run (List.replicate 1280 (0 : ℝ)) SPECTROGRAM_CONFIG).getD [])
        TARGET_SAMPLERATE_HZ SPECTROGRAM_CONFIG.fft_len
        SPECTROGRAM_CONFIG.overlap).toOption.getD []).map (fun r => r.segment_index) =
      List.range ((insert_sectrogram_for_song 0 7
        ((SpectrogramGenerator.run (List.replicate 1280 (0 : ℝ)) SPECTROGRAM_CONFIG).getD [])
        TARGET_SAMPLERATE_HZ SPECTROGRAM_CONFIG.fft_len
        SPECTROGRAM_CONFIG.overlap).toOption.getD []).length ∧
    (∀ (i j : Nat) (ri rj : SegmentRow), i < j →
      ((insert_sectrogram_for_song 0 7
        ((SpectrogramGenerator.run (List.replicate 1280 (0 : ℝ)) SPECTROGRAM_CONFIG).getD [])
        TARGET_SAMPLERATE_HZ SPECTROGRAM_CONFIG.fft_len
        SPECTROGRAM_CONFIG.overlap).toOption.getD [])[i]? = some ri →
      ((insert_sectrogram_for_song 0 7
        ((SpectrogramGenerator.run (List.replicate 1280 (0 : ℝ)) SPECTROGRAM_CONFIG).getD [])
        TARGET_SAMPLERATE_HZ SPECTROGRAM_CONFIG.fft_len
        SPECTROGRAM_CONFIG.overlap).toOption.getD [])[j]? = some rj →
      ri.start_ts_ms < rj.start_ts_ms ∧ ri.end_ts_ms < rj.end_ts_ms) ∧
    (∀ r ∈ ((insert_sectrogram_for_song 0 7
        ((SpectrogramGenerator.run (List.replicate 1280 (0 : ℝ)) SPECTROGRAM_CONFIG).getD [])
        TARGET_SAMPLERATE_HZ SPECTROGRAM_CONFIG.fft_len
        SPECTROGRAM_CONFIG.overlap).toOption.getD []),
      r.vec.length = SPECTROGRAM_CONFIG.fft_len / 2)) := by
  have hrun : SpectrogramGenerator.run (List.replicate 1280 (0 : ℝ)) SPECTROGRAM_CONFIG =
      some ((SpectrogramGenerator.run (List.replicate 1280 (0 : ℝ))
        SPECTROGRAM_CONFIG).getD []) := by
    rw [SpectrogramGenerator.run_eq_some _ _ (by decide) (by decide)]
    rfl
  have hins : insert_sectrogram_for_song 0 7
      ((SpectrogramGenerator.run (List.replicate 1280 (0 : ℝ)) SPECTROGRAM_CONFIG).getD [])
      TARGET_SAMPLERATE_HZ SPECTROGRAM_CONFIG.fft_len SPECTROGRAM_CONFIG.overlap =
      Except.ok ((insert_sectrogram_for_song 0 7
        ((SpectrogramGenerator.run (List.replicate 1280 (0 : ℝ)) SPECTROGRAM_CONFIG).getD [])
        TARGET_SAMPLERATE_HZ SPECTROGRAM_CONFIG.fft_len
        SPECTROGRAM_CONFIG.overlap).toOption.getD []) := rfl
  exact ⟨by decide, ingest_segment_invariants _ (by decide) 7 _ hrun _ hins⟩

namespace SpectrogramGenerator

/-- generate_hann from src/process/src/lib.rs: generate the window,
insert it into the haans cache, and return it. -/
noncomputable def generate_hann (haans : Nat → Option (List ℝ)) (size : Nat) :
    List ℝ × (Nat → Option (List ℝ)) :=
  (generate_hanning_window size,
    Function.update haans size (some (generate_hanning_window size)))

/-- get_hann from src/process/src/lib.rs: return the cached window when
present, otherwise generate and cache it.  The haans field (a shared
read-write map in the source) is modelled by explicit state passing. -/
noncomputable def get_hann (haans : Nat → Option (List ℝ)) (size : Nat) :
    List ℝ × (Nat → Option (List ℝ)) :=
  match haans size with
  | some w => (w, haans)
  | none => generate_hann haans size

/-- A cache state is well formed when every cached entry equals the Hann
window of its length: the invariant maintained by generate_hann, the only
writer. -/
def CacheWF (haans : Nat → Option (List ℝ)) : Prop :=
  ∀ n w, haans n = some w → w = generate_hanning_window n

end SpectrogramGenerator

/-- Claim C9: for every N >= 1 (and any well-formed cache state), the
window cache get(N) returns a sequence of length N whose i-th element is
0.5 * (1 - cos(2 pi i / N)) for i in [0, N), the call never fails
(get_hann is total), and the cache stays well formed. -/
theorem get_hann_spec (haans : Nat → Option (List ℝ))
    (hwf : SpectrogramGenerator.CacheWF haans) (N : Nat) (hN : 1 ≤ N) :
    (SpectrogramGenerator.get_hann haans N).1.length = N ∧
    (∀ i < N, ((SpectrogramGenerator.get_hann haans N).1)[i]? =
      some (0.5 * (1 - Real.cos (2 * Real.pi * (i : ℝ) / (N : ℝ))))) ∧
    SpectrogramGenerator.CacheWF (SpectrogramGenerator.get_hann haans N).2 := by
  have hw : (SpectrogramGenerator.get_hann haans N).1 = generate_hanning_window N := by
    unfold SpectrogramGenerator.get_hann
    cases hc : haans N with
    | some w =>
      simp only []
      exact hwf N w hc
    | none =>
      simp only [SpectrogramGenerator.generate_hann]
  refine ⟨?_, ?_, ?_⟩
  · rw [hw, generate_hanning_window_length]
  · intro i hi
    rw [hw, generate_hanning_window_getElem? N i hi, mul_div_assoc]
  · unfold SpectrogramGenerator.get_hann
    cases hc : haans N with
    | some w =>
      simp only []
      exact hwf
    | none =>
      simp only [SpectrogramGenerator.generate_hann]
      intro n w hnw
      rcases eq_or_ne n N with rfl | hne
      · rw [Function.update_same] at hnw
        exact (Option.some.inj hnw).symm
      · rw [Function.update_noteq hne] at hnw
        exact hwf n w hnw

theorem get_hann_spec_witness :
    (SpectrogramGenerator.CacheWF (fun _ => none) ∧ 1 ≤ 4) ∧
    ((SpectrogramGenerator.get_hann (fun _ => none) 4).1.length = 4 ∧
    (∀ i : Nat, i < 4 → ((SpectrogramGenerator.get_hann (fun _ => none) 4).1)[i]? =
      some (0.5 * (1 - Real.cos (2 * Real.pi * (i : ℝ) / ((4 : Nat) : ℝ))))) ∧
    SpectrogramGenerator.CacheWF (SpectrogramGenerator.get_hann (fun _ => none) 4).2) := by
  have hwfe : SpectrogramGenerator.CacheWF (fun _ => none) := by
    intro n w h
    exact Option.noConfusion h
  exact ⟨⟨hwfe, by decide⟩, get_hann_spec (fun _ => none) hwfe 4 (by decide)⟩

/-- The score-accumulation step of discover_song
(src/process_cli/src/main.rs): for each received result list (entries
(song_id, segment_index, distance) from find_similar_to), the hit at
zero-based position index adds n - index to the score of its song_id,
where n is the length of the list.  The HashMap with absent keys
inserted as 0 is modelled by a total function from song id to score. -/
def scoreResult (scores : ℤ → ℕ) (result : List (ℤ × ℤ × ℚ)) : ℤ → ℕ :=
  (result.enum).foldl
    (fun m p => Function.update m p.2.1 (m p.2.1 + (result.length - p.1))) scores

/-- Helper: apply a list of (song_id, weight) votes to a score map. -/
def applyVotes (votes : List (ℤ × ℕ)) (scores : ℤ → ℕ) : ℤ → ℕ :=
  votes.foldl (fun m v => Function.update m v.1 (m v.1 + v.2)) scores

theorem scoreResult_eq_applyVotes (scores : ℤ → ℕ) (result : List (ℤ × ℤ × ℚ)) :
    scoreResult scores result =
      applyVotes (result.enum.map (fun p => (p.2.1, result.length - p.1))) scores := by
  unfold scoreResult applyVotes
  rw [List.foldl_map]

theorem applyVotes_apply (votes : List (ℤ × ℕ)) (scores : ℤ → ℕ) (sid : ℤ) :
    applyVotes votes scores sid =
      scores sid + ((votes.filter (fun v => v.1 == sid)).map (fun v => v.2)).sum := by
  induction votes generalizing scores with
  | nil => simp [applyVotes]
  | cons v vs ih =>
    have hcons : applyVotes (v :: vs) scores =
        applyVotes vs (Function.update scores v.1 (scores v.1 + v.2)) := rfl
    rw [hcons, ih]
    rcases eq_or_ne v.1 sid with heq | hne
    · rw [heq, Function.update_same]
      have hf : (v :: vs).filter (fun w => w.1 == sid) =
          v :: vs.filter (fun w => w.1 == sid) := by
        rw [List.filter_cons_of_pos]
        simp [heq]
      rw [hf, List.map_cons, List.sum_cons]
      omega
    · rw [Function.update_noteq (by simpa using hne.symm)]
      have hf : (v :: vs).filter (fun w => w.1 == sid) =
          vs.filter (fun w => w.1 == sid) := by
        rw [List.filter_cons_of_neg]
        simp [hne]
      rw [hf]

theorem applyVotes_sum (votes : List (ℤ × ℕ)) (scores : ℤ → ℕ) (S : Finset ℤ)
    (hS : ∀ v ∈ votes, v.1 ∈ S) :
    ∑ sid ∈ S, applyVotes votes scores sid =
      (∑ sid ∈ S, scores sid) + (votes.map (fun v => v.2)).sum := by
  induction votes generalizing scores with
  | nil => simp [applyVotes]
  | cons v vs ih =>
    have hcons : applyVotes (v :: vs) scores =
        applyVotes vs (Function.update scores v.1 (scores v.1 + v.2)) := rfl
    rw [hcons, ih _ (fun w hw => hS w (List.mem_cons_of_mem _ hw))]
    have hv : v.1 ∈ S := hS v (List.mem_cons_self _ _)
    have hupd : ∑ sid ∈ S, Function.update scores v.1 (scores v.1 + v.2) sid =
        (∑ sid ∈ S, scores sid) + v.2 := by
      rw [Finset.sum_update_of_mem hv, Finset.sdiff_singleton_eq_erase]
      have herase : scores v.1 + ∑ sid ∈ S.erase v.1, scores sid = ∑ sid ∈ S, scores sid :=
        Finset.add_sum_erase S scores hv
      omega
    rw [hupd, List.map_cons, List.sum_cons]
    omega

theorem two_mul_sum_range_sub (n : Nat) :
    2 * (∑ i ∈ Finset.range n, (n - i)) = n * (n + 1) := by
  have hrefl := Finset.sum_range_reflect (fun j => j + 1) n
  have hcongr : ∑ i ∈ Finset.range n, (n - i) =
      ∑ j ∈ Finset.range n, (n - 1 - j + 1) := by
    refine Finset.sum_congr rfl ?_
    intro i hi
    have := Finset.mem_range.mp hi
    omega
  rw [hcongr, hrefl]
  have hsplit : ∑ j ∈ Finset.range n, (j + 1) =
      (∑ j ∈ Finset.range n, j) + n := by
    rw [Finset.sum_add_distrib, Finset.sum_const, Finset.card_range, smul_eq_mul, mul_one]
  rw [hsplit]
  have hgauss := Finset.sum_range_id_mul_two n
  cases n with
  | zero => simp
  | succ m =>
    have : (∑ i ∈ Finset.range (m + 1), i) * 2 = (m + 1) * m := hgauss
    have hexp : (m + 1) * m + 2 * (m + 1) = (m + 1) * (m + 1 + 1) := by ring
    omega

/-- Claim C6: for every nearest-neighbor result list of length n, the
aggregator adds (n - i) to the score of the recording owning the hit at
zero-based position i, and consequently the total score contributed by
the list, summed across all recordings, is n * (n + 1) / 2. -/
theorem discover_scoring_law (scores : ℤ → ℕ) (result : List (ℤ × ℤ × ℚ))
    (S : Finset ℤ) (hS : ∀ hit ∈ result, hit.1 ∈ S) :
    (∀ sid : ℤ, scoreResult scores result sid = scores sid +
      (((result.enum.filter (fun p => p.2.1 == sid)).map
        (fun p => result.length - p.1)).sum)) ∧
    ∑ sid ∈ S, scoreResult scores result sid =
      (∑ sid ∈ S, scores sid) + result.length * (result.length + 1) / 2 := by
  constructor
  · intro sid
    rw [scoreResult_eq_applyVotes, applyVotes_apply]
    congr 1
    rw [List.filter_map, List.map_map]
    congr 1
  · rw [scoreResult_eq_applyVotes]
    rw [applyVotes_sum]
    · congr 1
      have hw : ((result.enum.map (fun p => (p.2.1, result.length - p.1))).map
          (fun v => v.2)).sum = ∑ i ∈ Finset.range result.length, (result.length - i) := by
        rw [List.map_map]
        have hcomp : ((fun v : ℤ × ℕ => v.2) ∘
            (fun p : ℕ × (ℤ × ℤ × ℚ) => (p.2.1, result.length - p.1))) =
            (fun p : ℕ × (ℤ × ℤ × ℚ) => result.length - p.1) := rfl
        rw [hcomp]
        have h2 : result.enum.map (fun p : ℕ × (ℤ × ℤ × ℚ) => result.length - p.1) =
            (result.enum.map Prod.fst).map (fun i => result.length - i) := by
          rw [List.map_map]
          rfl
        rw [h2, List.enum_map_fst]
        rfl
      rw [hw]
      have := two_mul_sum_range_sub result.length
      omega
    · intro v hv
      obtain ⟨p, hp, rfl⟩ := List.mem_map.mp hv
      obtain ⟨pi, phit⟩ := p
      have hmem : phit ∈ result := by
        rw [List.enum_eq_zip_range] at hp
        exact (List.of_mem_zip hp).2
      exact hS phit hmem

theorem discover_scoring_law_witness :
    (∀ hit ∈ ([(1, 0, 0), (2, 0, 0)] : List (ℤ × ℤ × ℚ)), hit.1 ∈ ({1, 2} : Finset ℤ)) ∧
    ((∀ sid : ℤ, scoreResult (fun _ => 0) ([(1, 0, 0), (2, 0, 0)] : List (ℤ × ℤ × ℚ)) sid =
      0 + (((([(1, 0, 0), (2, 0, 0)] : List (ℤ × ℤ × ℚ)).enum.filter
          (fun p => p.2.1 == sid)).map
        (fun p => ([(1, 0, 0), (2, 0, 0)] : List (ℤ × ℤ × ℚ)).length - p.1)).sum)) ∧
    ∑ sid ∈ ({1, 2} : Finset ℤ),
        scoreResult (fun _ => 0) ([(1, 0, 0), (2, 0, 0)] : List (ℤ × ℤ × ℚ)) sid =
      (∑ sid ∈ ({1, 2} : Finset ℤ), (0 : ℕ)) + 3) := by
  exact ⟨by decide,
    discover_scoring_law (fun _ => 0) ([(1, 0, 0), (2, 0, 0)] : List (ℤ × ℤ × ℚ))
      ({1, 2} : Finset ℤ) (by decide)⟩

/-- The aggregated score map of discover_song: fold the received result
lists into the initially empty score map. -/
def discoverScores (results : List (List (ℤ × ℤ × ℚ))) : ℤ → ℕ :=
  results.foldl scoreResult (fun _ => 0)

/-- The key set of the score hashmap of discover_song: every song_id
occurring in some received result list (keys are inserted with score 0
then immediately incremented).  The HashMap iteration order of the
source is unspecified; first-occurrence order is one admissible order. -/
def discoverKeys (results : List (List (ℤ × ℤ × ℚ))) : List ℤ :=
  ((results.flatten).map (fun h => h.1)).dedup

/-- The top vector of discover_song: (song_id, score) pairs collected
from the hashmap, sorted ascending by score (sort_by_key) and reversed. -/
def discoverTop (results : List (List (ℤ × ℤ × ℚ))) : List (ℤ × ℕ) :=
  (((discoverKeys results).map (fun k => (k, discoverScores results k))).mergeSort
    (fun a b => a.2 ≤ b.2)).reverse

/-- The slice top[..n_matches] of discover_song: Rust range slicing
panics (modelled none) when n_matches exceeds the length of top. -/
def discoverTake (results : List (List (ℤ × ℤ × ℚ))) (n_matches : Nat) :
    Option (List (ℤ × ℕ)) :=
  if n_matches ≤ (discoverTop results).length then
    some ((discoverTop results).take n_matches)
  else none

theorem applyVotes_le (votes : List (ℤ × ℕ)) (scores : ℤ → ℕ) (sid : ℤ) :
    scores sid ≤ applyVotes votes scores sid := by
  rw [applyVotes_apply]
  omega

theorem applyVotes_pos (votes : List (ℤ × ℕ)) (scores : ℤ → ℕ) (sid : ℤ) (w : ℕ)
    (hmem : (sid, w) ∈ votes) (hw : 1 ≤ w) : 1 ≤ applyVotes votes scores sid := by
  rw [applyVotes_apply]
  have hm : w ∈ ((votes.filter (fun v => v.1 == sid)).map (fun v => v.2)) := by
    refine List.mem_map.mpr ⟨(sid, w), ?_, rfl⟩
    refine List.mem_filter.mpr ⟨hmem, by simp⟩
  have hle : w ≤ ((votes.filter (fun v => v.1 == sid)).map (fun v => v.2)).sum :=
    List.single_le_sum (fun x _ => Nat.zero_le x) w hm
  omega

theorem scoreResult_le (scores : ℤ → ℕ) (result : List (ℤ × ℤ × ℚ)) (sid : ℤ) :
    scores sid ≤ scoreResult scores result sid := by
  rw [scoreResult_eq_applyVotes]
  exact applyVotes_le _ _ _

theorem scoreResult_pos (scores : ℤ → ℕ) (result : List (ℤ × ℤ × ℚ))
    (hit : ℤ × ℤ × ℚ) (hmem : hit ∈ result) :
    1 ≤ scoreResult scores result hit.1 := by
  rw [scoreResult_eq_applyVotes]
  obtain ⟨⟨i, hi⟩, hgi⟩ := List.mem_iff_get.mp hmem
  have hres : result[i]? = some hit := by
    rw [List.getElem?_eq_getElem hi]
    exact congrArg some hgi
  have henum : result.enum[i]? = some (i, hit) := by
    rw [List.getElem?_enum, hres, Option.map_some']
  have henummem : (i, hit) ∈ result.enum := List.getElem?_mem henum
  refine applyVotes_pos _ _ _ (result.length - i) ?_ (by omega)
  exact List.mem_map.mpr ⟨(i, hit), henummem, rfl⟩

theorem foldl_scoreResult_le (results : List (List (ℤ × ℤ × ℚ))) (scores : ℤ → ℕ)
    (sid : ℤ) : scores sid ≤ results.foldl scoreResult scores sid := by
  induction results generalizing scores with
  | nil => simp
  | cons r rs ih =>
    calc scores sid ≤ scoreResult scores r sid := scoreResult_le _ _ _
      _ ≤ rs.foldl scoreResult (scoreResult scores r) sid := ih _

theorem foldl_scoreResult_pos (results : List (List (ℤ × ℤ × ℚ))) (scores : ℤ → ℕ)
    (k : ℤ) (h : ∃ r ∈ results, ∃ hit ∈ r, (hit : ℤ × ℤ × ℚ).1 = k) :
    1 ≤ results.foldl scoreResult scores k := by
  induction results generalizing scores with
  | nil =>
    obtain ⟨r, hr, _⟩ := h
    simp at hr
  | cons r rs ih =>
    obtain ⟨r2, hr2, hit, hhit, hk⟩ := h
    rcases List.mem_cons.mp hr2 with rfl | hmem
    · have h1 : 1 ≤ scoreResult scores r2 k := by
        rw [← hk]
        exact scoreResult_pos _ _ _ hhit
      calc 1 ≤ scoreResult scores r2 k := h1
        _ ≤ rs.foldl scoreResult (scoreResult scores r2) k := foldl_scoreResult_le _ _ _
    · exact ih _ ⟨r2, hmem, hit, hhit, hk⟩

theorem discoverKeys_mem (results : List (List (ℤ × ℤ × ℚ))) (k : ℤ)
    (hk : k ∈ discoverKeys results) :
    ∃ r ∈ results, ∃ hit ∈ r, (hit : ℤ × ℤ × ℚ).1 = k := by
  unfold discoverKeys at hk
  rw [List.mem_dedup] at hk
  obtain ⟨hit, hhit, rfl⟩ := List.mem_map.mp hk
  obtain ⟨r, hr, hmem⟩ := List.mem_flatten.mp hhit
  exact ⟨r, hr, hit, hmem, rfl⟩

/-- Claim C1 (amended): discover_song panics at the slice
top[..n_matches] (modelled none) exactly when n_matches exceeds the
number of recordings with a non-zero score; otherwise it returns the
first n_matches ranked entries (no truncation to the available set
happens on overflow: the claim as stated fails, see the counterexample). -/
theorem discover_take_amended (results : List (List (ℤ × ℤ × ℚ))) (n_matches : Nat) :
    ((discoverTake results n_matches).isSome ↔
      n_matches ≤ ((discoverKeys results).filter
        (fun k => discoverScores results k != 0)).length) ∧
    ∀ top, discoverTake results n_matches = some top →
      top = (discoverTop results).take n_matches := by
  have hfilter : (discoverKeys results).filter (fun k => discoverScores results k != 0)
      = discoverKeys results := by
    rw [List.filter_eq_self]
    intro k hk
    have hpos := foldl_scoreResult_pos results (fun _ => 0) k (discoverKeys_mem results k hk)
    have hne : discoverScores results k ≠ 0 := by
      unfold discoverScores
      omega
    simpa using hne
  have hlen : (discoverTop results).length = (discoverKeys results).length := by
    unfold discoverTop
    rw [List.length_reverse, List.length_mergeSort, List.length_map]
  constructor
  · rw [hfilter]
    unfold discoverTake
    split
    · rename_i h
      rw [hlen] at h
      simp [h]
    · rename_i h
      rw [hlen] at h
      simp [h]
  · intro top htop
    unfold discoverTake at htop
    split at htop
    · exact (Option.some.inj htop).symm
    · exact absurd htop (by simp)

/-- Counterexample to claim C1 as stated: with exactly one recording
receiving a (non-zero) score and n_matches = 10, discover_song does not
return a truncated result: the slice top[..n_matches] panics (none). -/
theorem discover_truncation_counterexample :
    discoverTake [[((1 : ℤ), (0 : ℤ), (0 : ℚ))]] 10 = none := by
  unfold discoverTake
  rw [if_neg]
  rw [not_le]
  have hl : (discoverTop [[((1 : ℤ), (0 : ℤ), (0 : ℚ))]]).length = 1 := by
    unfold discoverTop discoverKeys
    rw [List.length_reverse, List.length_mergeSort, List.length_map]
    decide
  omega

theorem discover_take_amended_witness :
    ((discoverTake [[((1 : ℤ), (0 : ℤ), (0 : ℚ))]] 1).isSome ↔
      1 ≤ ((discoverKeys [[((1 : ℤ), (0 : ℤ), (0 : ℚ))]]).filter
        (fun k => discoverScores [[((1 : ℤ), (0 : ℤ), (0 : ℚ))]] k != 0)).length) ∧
    ∀ top, discoverTake [[((1 : ℤ), (0 : ℤ), (0 : ℚ))]] 1 = some top →
      top = (discoverTop [[((1 : ℤ), (0 : ℤ), (0 : ℚ))]]).take 1 :=
  discover_take_amended [[((1 : ℤ), (0 : ℤ), (0 : ℚ))]] 1

/-- The metadata fields produced by the bulk-ingest filename parser
(ParseResult::Parsed in src/process_cli/src/main.rs): title, singer_id,
optional (day, month, year).  The external shell script is modelled as a
function from the file name to these fields or a parse failure (none). -/
structure ParsedMeta where
  title : String
  singer_id : ℤ
  date : Option (Nat × Nat × Nat)

/-- A directory entry processed by upload_bulk: its canonical absolute
path and the file name handed to the parser script. -/
structure IngestFile where
  canonical_path : String
  file_name : String

/-- The outcome of one bulk-ingest task of upload_bulk. -/
inductive TaskOutcome
  | skippedExisting
  | parseFailed
  | inserted
deriving DecidableEq

/-- Database::song_already_saved (src/database/src/lib.rs): whether some
recording row has this local_path.  The store is modelled by the list of
local_path values of the inserted recordings, in insertion order. -/
def song_already_saved (paths : List String) (full_file_path : String) : Bool :=
  paths.contains full_file_path

/-- One task body of upload_bulk (src/process_cli/src/main.rs): check
song_already_saved on the canonical path and skip with a warning when
present; run the parser and skip on parse failure; otherwise decode,
generate the spectrogram and insert the recording, which appends its
local_path to the store.  Decoding and frame insertion do not affect the
path state and are elided here. -/
def bulk_task (parse : String → Option ParsedMeta) (paths : List String)
    (file : IngestFile) : List String × TaskOutcome :=
  if song_already_saved paths file.canonical_path then (paths, .skippedExisting)
  else
    match parse file.file_name with
    | none => (paths, .parseFailed)
    | some _ => (paths ++ [file.canonical_path], .inserted)

/-- upload_bulk over a directory: the per-file tasks in sequence (the
semaphore-bounded concurrency of the source is serialised here). -/
def upload_bulk (parse : String → Option ParsedMeta) (files : List IngestFile)
    (paths : List String) : List String × List TaskOutcome :=
  match files with
  | [] => (paths, [])
  | f :: fs =>
    let r := bulk_task parse paths f
    let rest := upload_bulk parse fs r.1
    (rest.1, r.2 :: rest.2)

theorem bulk_task_skips (parse : String → Option ParsedMeta) (paths : List String)
    (f : IngestFile) (h : song_already_saved paths f.canonical_path = true) :
    bulk_task parse paths f = (paths, TaskOutcome.skippedExisting) := by
  unfold bulk_task
  rw [if_pos h]

theorem upload_bulk_mem_preserved (parse : String → Option ParsedMeta)
    (files : List IngestFile) (paths : List String) (p : String) (hp : p ∈ paths) :
    p ∈ (upload_bulk parse files paths).1 := by
  induction files generalizing paths with
  | nil => simpa [upload_bulk]
  | cons f fs ih =>
    simp only [upload_bulk]
    apply ih
    unfold bulk_task
    by_cases hsav : song_already_saved paths f.canonical_path
    · simp [hsav, hp]
    · cases hparse : parse f.file_name with
      | none => simp [hsav, hparse, hp]
      | some m => simp [hsav, hparse, List.mem_append, hp]

theorem upload_bulk_covers (parse : String → Option ParsedMeta)
    (files : List IngestFile) (paths : List String) :
    ∀ f ∈ files, parse f.file_name ≠ none →
      f.canonical_path ∈ (upload_bulk parse files paths).1 := by
  induction files generalizing paths with
  | nil =>
    intro f hf
    simp at hf
  | cons g gs ih =>
    intro f hf hparse
    rcases List.mem_cons.mp hf with rfl | hmem
    · simp only [upload_bulk]
      apply upload_bulk_mem_preserved
      unfold bulk_task
      by_cases hsav : song_already_saved paths f.canonical_path
      · rw [if_pos hsav]
        simpa [song_already_saved] using hsav
      · rw [if_neg hsav]
        cases hpf : parse f.file_name with
        | none => exact absurd hpf hparse
        | some m => simp [hpf]
    · simp only [upload_bulk]
      exact ih _ f hmem hparse

theorem upload_bulk_no_insert (parse : String → Option ParsedMeta)
    (files : List IngestFile) (paths : List String)
    (h : ∀ f ∈ files, parse f.file_name = none ∨ f.canonical_path ∈ paths) :
    (upload_bulk parse files paths).1 = paths ∧
    (∀ o ∈ (upload_bulk parse files paths).2, o ≠ TaskOutcome.inserted) ∧
    (∀ (i : Nat) (f : IngestFile), files[i]? = some f → parse f.file_name ≠ none →
      (upload_bulk parse files paths).2[i]? = some TaskOutcome.skippedExisting) := by
  induction files generalizing paths with
  | nil =>
    refine ⟨rfl, ?_, ?_⟩
    · intro o ho
      simp [upload_bulk] at ho
    · intro i f hf
      simp at hf
  | cons g gs ih =>
    have hg := h g (List.mem_cons_self _ _)
    have hhead : bulk_task parse paths g = (paths, TaskOutcome.skippedExisting) ∨
        (bulk_task parse paths g = (paths, TaskOutcome.parseFailed) ∧
          parse g.file_name = none) := by
      by_cases hsav : song_already_saved paths g.canonical_path
      · left
        exact bulk_task_skips parse paths g hsav
      · right
        have hnmem : g.canonical_path ∉ paths := by
          simpa [song_already_saved] using hsav
        rcases hg with hpn | hpm
        · constructor
          · unfold bulk_task
            rw [if_neg hsav, hpn]
          · exact hpn
        · exact absurd hpm hnmem
    have hrest := ih paths (fun f hf => h f (List.mem_cons_of_mem _ hf))
    rcases hhead with hcase | ⟨hcase, hpn⟩
    · refine ⟨?_, ?_, ?_⟩
      · simp only [upload_bulk, hcase]
        exact hrest.1
      · intro o ho
        simp only [upload_bulk, hcase, List.mem_cons] at ho
        rcases ho with rfl | ho2
        · simp
        · exact hrest.2.1 o ho2
      · intro i f hf hpf
        cases i with
        | zero =>
          simp only [List.getElem?_cons_zero, Option.some.injEq] at hf
          subst hf
          simp only [upload_bulk, hcase, List.getElem?_cons_zero]
        | succ n =>
          simp only [List.getElem?_cons_succ] at hf
          simp only [upload_bulk, hcase, List.getElem?_cons_succ]
          exact hrest.2.2 n f hf hpf
    · refine ⟨?_, ?_, ?_⟩
      · simp only [upload_bulk, hcase]
        exact hrest.1
      · intro o ho
        simp only [upload_bulk, hcase, List.mem_cons] at ho
        rcases ho with rfl | ho2
        · simp
        · exact hrest.2.1 o ho2
      · intro i f hf hpf
        cases i with
        | zero =>
          simp only [List.getElem?_cons_zero, Option.some.injEq] at hf
          subst hf
          exact absurd hpn hpf
        | succ n =>
          simp only [List.getElem?_cons_succ] at hf
          simp only [upload_bulk, hcase, List.getElem?_cons_succ]
          exact hrest.2.2 n f hf hpf

theorem upload_bulk_count (parse : String → Option ParsedMeta)
    (files : List IngestFile) (paths : List String) (p : String) :
    (upload_bulk parse files paths).1.count p ≤ max (paths.count p) 1 := by
  induction files generalizing paths with
  | nil =>
    simp only [upload_bulk]
    exact le_max_left _ _
  | cons g gs ih =>
    simp only [upload_bulk]
    have key : max ((bulk_task parse paths g).1.count p) 1 ≤ max (paths.count p) 1 := by
      unfold bulk_task
      by_cases hsav : song_already_saved paths g.canonical_path
      · rw [if_pos hsav]
      · rw [if_neg hsav]
        cases hpf : parse g.file_name with
        | none => rfl
        | some m =>
          simp only []
          have hnmem : g.canonical_path ∉ paths := by
            simpa [song_already_saved] using hsav
          rw [List.count_append]
          by_cases hpg : p = g.canonical_path
          · have hz : paths.count p = 0 := by
              rw [List.count_eq_zero, hpg]
              exact hnmem
            have h1 : ([g.canonical_path] : List String).count p = 1 := by
              rw [hpg]
              simp
            rw [hz, h1]
            simp
          · have hz : ([g.canonical_path] : List String).count p = 0 := by
              rw [List.count_eq_zero]
              simp [hpg]
            rw [hz]
            omega
    calc (upload_bulk parse gs (bulk_task parse paths g).1).1.count p
        ≤ max ((bulk_task parse paths g).1.count p) 1 := ih _
      _ ≤ max (paths.count p) 1 := key

/-- Claim C7: a file whose canonical absolute path is already stored as a
local_path is skipped by the bulk-ingest task without inserting anything;
hence running upload-bulk twice over the same directory inserts each file
at most once (the stored count of any path stays at most max(initial, 1))
and the second run skips every file: its store is unchanged, no task
reports inserted, and every file whose name parses is reported as
skipped-existing. -/
theorem upload_bulk_idempotent (parse : String → Option ParsedMeta)
    (files : List IngestFile) (st : List String) :
    (∀ (f : IngestFile) (paths : List String),
      song_already_saved paths f.canonical_path = true →
      bulk_task parse paths f = (paths, TaskOutcome.skippedExisting)) ∧
    (upload_bulk parse files (upload_bulk parse files st).1).1
      = (upload_bulk parse files st).1 ∧
    (∀ o ∈ (upload_bulk parse files (upload_bulk parse files st).1).2,
      o ≠ TaskOutcome.inserted) ∧
    (∀ (i : Nat) (f : IngestFile), files[i]? = some f → parse f.file_name ≠ none →
      (upload_bulk parse files (upload_bulk parse files st).1).2[i]?
        = some TaskOutcome.skippedExisting) ∧
    (∀ p : String, (upload_bulk parse files (upload_bulk parse files st).1).1.count p
      ≤ max (st.count p) 1) := by
  have hcond : ∀ f ∈ files, parse f.file_name = none ∨
      f.canonical_path ∈ (upload_bulk parse files st).1 := by
    intro f hf
    cases hparse : parse f.file_name with
    | none => exact Or.inl rfl
    | some m => exact Or.inr (upload_bulk_covers parse files st f hf (by simp [hparse]))
  obtain ⟨hstate, hnoins, hskip⟩ := upload_bulk_no_insert parse files _ hcond
  refine ⟨fun f paths h => bulk_task_skips parse paths f h, hstate, hnoins, hskip, ?_⟩
  intro p
  rw [hstate]
  exact upload_bulk_count parse files st p

theorem upload_bulk_idempotent_witness :
    (∀ (f : IngestFile) (paths : List String),
      song_already_saved paths f.canonical_path = true →
      bulk_task (fun _ => some ⟨"t", 1, none⟩) paths f
        = (paths, TaskOutcome.skippedExisting)) ∧
    (upload_bulk (fun _ => some ⟨"t", 1, none⟩) [⟨"/a", "a"⟩]
      (upload_bulk (fun _ => some ⟨"t", 1, none⟩) [⟨"/a", "a"⟩] []).1).1
      = (upload_bulk (fun _ => some ⟨"t", 1, none⟩) [⟨"/a", "a"⟩] []).1 ∧
    (∀ o ∈ (upload_bulk (fun _ => some ⟨"t", 1, none⟩) [⟨"/a", "a"⟩]
      (upload_bulk (fun _ => some ⟨"t", 1, none⟩) [⟨"/a", "a"⟩] []).1).2,
      o ≠ TaskOutcome.inserted) ∧
    (∀ (i : Nat) (f : IngestFile), ([⟨"/a", "a"⟩] : List IngestFile)[i]? = some f →
      (fun _ => some (⟨"t", 1, none⟩ : ParsedMeta)) f.file_name ≠ none →
      (upload_bulk (fun _ => some ⟨"t", 1, none⟩) [⟨"/a", "a"⟩]
        (upload_bulk (fun _ => some ⟨"t", 1, none⟩) [⟨"/a", "a"⟩] []).1).2[i]?
        = some TaskOutcome.skippedExisting) ∧
    (∀ p : String, (upload_bulk (fun _ => some ⟨"t", 1, none⟩) [⟨"/a", "a"⟩]
      (upload_bulk (fun _ => some ⟨"t", 1, none⟩) [⟨"/a", "a"⟩] []).1).1.count p
      ≤ max (([] : List String).count p) 1) :=
  upload_bulk_idempotent (fun _ => some ⟨"t", 1, none⟩) [⟨"/a", "a"⟩] []
